import Mathlib

/-!
Verification of the bureau-parser backend (Kalki Finserv bureau parser API).

The JavaScript sources are shallowly embedded here:

* JS strings are `String` / `List Char`; JS numbers produced by the amount
  and score extractors are exact decimal values `num / 10 ^ exp` (`JsNum`),
  with a `toRat` view used in statements.  The repository only ever builds
  numbers out of decimal digit strings via `parseFloat`, so this captures the
  values exactly (float overflow for numbers beyond 1.8e308 is not modelled).
* Regex searches of the source are embedded as explicit left-to-right
  scanning functions; every pattern used by the repository is deterministic
  after greedy/backtracking analysis, which each embedding follows.
* The namespaces mirror the source variants: `Parser` is `parser.js`,
  `RuleBased` is the rule-based backend (`unnamed/part_002`), `Patched` is
  the final patched AI backend in `server.js` (the variant that defines
  `parseAmount` via a first-number regex, normalizes loan details, and
  overrides `totals.loanOutstanding`).
-/

/-- JS whitespace (the `\s` class): tab..carriage-return, space, NBSP,
Ogham space, the U+2000..U+200A range, line/paragraph separators,
narrow NBSP, math space, ideographic space, BOM. -/
def isJsWs (c : Char) : Bool :=
  let n := c.toNat
  (9 ≤ n && n ≤ 13) || n == 32 || n == 160 || n == 5760 ||
    (8192 ≤ n && n ≤ 8202) || n == 8232 || n == 8233 || n == 8239 ||
    n == 8287 || n == 12288 || n == 65279

/-- ASCII decimal digit. -/
def isDigitChar (c : Char) : Bool :=
  48 ≤ c.toNat && c.toNat ≤ 57

/-- Numeric value of a decimal digit character. -/
def digitVal (c : Char) : Nat := c.toNat - 48

/-- Value of a list of decimal digit characters (most significant first). -/
def natOfDigits (l : List Char) : Nat :=
  l.foldl (fun a c => 10 * a + digitVal c) 0

/-- JS `String.prototype.trim`: strip JS whitespace from both ends. -/
def jsTrim (l : List Char) : List Char :=
  ((l.dropWhile isJsWs).reverse.dropWhile isJsWs).reverse

/-- JS `String.prototype.toLowerCase`, character-wise (ASCII; the markers and
keywords the repository lowercases are all ASCII). -/
def toLowerList (l : List Char) : List Char := l.map Char.toLower

/-- Case-insensitive character equality (via ASCII lower-casing). -/
def eqCI (a b : Char) : Bool := a.toLower == b.toLower

/-- An exact JS number as produced by the repository's parsers:
the value `num / 10 ^ exp`. -/
structure JsNum where
  num : Int
  exp : Nat
deriving DecidableEq, Repr

/-- The rational value of a `JsNum`. -/
def JsNum.toRat (a : JsNum) : ℚ := (a.num : ℚ) / 10 ^ a.exp

/-- The JS number `0`. -/
def JsNum.zero : JsNum := ⟨0, 0⟩

/-- JS truthiness of a number: falsy exactly when its value is `0`
(`NaN` never reaches the `||` chains of the source: every stored number has
been through `parseAmount`, which yields `0` on parse failure). -/
def JsNum.truthy (a : JsNum) : Bool := a.num != 0

/-- JS `a || b` on numbers. -/
def jsOrNum (a b : JsNum) : JsNum := if a.truthy then a else b

theorem JsNum.toRat_nonneg (a : JsNum) (h : 0 ≤ a.num) : 0 ≤ a.toRat := by
  unfold JsNum.toRat
  apply div_nonneg
  · exact_mod_cast h
  · positivity

theorem JsNum.toRat_neg_of_num_neg (a : JsNum) (h : a.num < 0) : a.toRat < 0 := by
  unfold JsNum.toRat
  apply div_neg_of_neg_of_pos
  · exact_mod_cast h
  · positivity

theorem JsNum.toRat_int (n : Int) : (JsNum.mk n 0).toRat = n := by
  simp [JsNum.toRat]

/-- The optional-sign step of `parseFloat`. -/
def jsSign (l : List Char) : Bool × List Char :=
  match l with
  | c :: r => if c = '-' then (true, r) else if c = '+' then (false, r) else (false, l)
  | [] => (false, l)

/-- The optional `.`-plus-digits fraction part: digits after a leading dot. -/
def fracDigits (r1 : List Char) : List Char :=
  match r1 with
  | c :: r2 => if c = '.' then r2.takeWhile isDigitChar else []
  | [] => []

/-- The digits-and-fraction part of `parseFloat` after the sign. -/
def jsMantissa (neg : Bool) (l2 : List Char) : Option JsNum :=
  let d1 := l2.takeWhile isDigitChar
  let d2 := fracDigits (l2.dropWhile isDigitChar)
  if d1.isEmpty && d2.isEmpty then none
  else
    let mag : Int := ((natOfDigits d1) * 10 ^ d2.length + natOfDigits d2 : Nat)
    some ⟨if neg then -mag else mag, d2.length⟩

/-- JS `parseFloat` restricted to the strings this repository feeds it
(no exponent part ever occurs: the inputs are filtered to `[0-9.-]` or are
regex matches of `-?\d+(\.\d+)?`): skip leading whitespace, optional sign,
integer digits, optional `.` plus fraction digits; `NaN` (here `none`) when
no digit was consumed. -/
def jsParseFloat (l : List Char) : Option JsNum :=
  jsMantissa (jsSign (l.dropWhile isJsWs)).1 (jsSign (l.dropWhile isJsWs)).2

namespace RuleBased

/-- Model of `parseAmount` of the rule-based backend (`unnamed/part_002` line 19,
identical in `server.js` line 25): strip every character outside `[0-9.-]`
(in particular all commas), `parseFloat` the remainder, and return `0`
unless the result is finite. -/
def parseAmount (s : String) : JsNum :=
  if s = "" then JsNum.zero
  else
    let cleaned := s.data.filter (fun c => isDigitChar c || c == '.' || c == '-')
    match jsParseFloat cleaned with
    | some v => v
    | none => JsNum.zero

end RuleBased

namespace Patched

/-- Leftmost match of `-?\d+(\.\d+)?` (the first signed decimal substring):
at the first position holding a digit, or a `-` directly followed by a digit,
read the greedy digit run and an optional `.`-plus-digits fraction.
`parseFloat` of such a match is its exact decimal value, which is returned
directly. -/
def readNum (neg : Bool) (l : List Char) : JsNum :=
  let d1 := l.takeWhile isDigitChar
  let d2 := fracDigits (l.dropWhile isDigitChar)
  let mag : Int := ((natOfDigits d1) * 10 ^ d2.length + natOfDigits d2 : Nat)
  ⟨if neg then -mag else mag, d2.length⟩

/-- Whether a list starts with a decimal digit. -/
def headDigit : List Char → Bool
  | d :: _ => isDigitChar d
  | [] => false

/-- Scan for the leftmost `-?\d+(\.\d+)?` match. -/
def firstNumMatch : List Char → Option JsNum
  | [] => none
  | c :: rest =>
    if isDigitChar c then some (readNum false (c :: rest))
    else if c == '-' && headDigit rest then some (readNum true rest)
    else firstNumMatch rest

/-- Model of `parseAmount` of the patched backend (`server.js` lines 432-443):
trim, take the first `-?\d+(\.\d+)?` match if any, otherwise fall back to
stripping every character outside `[0-9.-]` and `parseFloat`-ing that;
`0` when nothing parses. -/
def parseAmount (s : String) : JsNum :=
  let t := jsTrim s.data
  match firstNumMatch t with
  | some v => v
  | none =>
    let cleaned := t.filter (fun c => isDigitChar c || c == '.' || c == '-')
    match jsParseFloat cleaned with
    | some v => v
    | none => JsNum.zero

/-- The function `parseAmount` lifted to a possibly-`null`/missing JS value
(`if (str == null) return 0`). -/
def parseAmountOpt : Option String → JsNum
  | none => JsNum.zero
  | some s => parseAmount s

end Patched

example : Patched.parseAmount "7,50,000" = ⟨7, 0⟩ := by decide

example : RuleBased.parseAmount "7,50,000" = ⟨750000, 0⟩ := by decide

example : Patched.parseAmount "₹1,23,456.00" = ⟨1, 0⟩ := by decide

example : Patched.parseAmount "12.05 %" = ⟨1205, 2⟩ := by decide

example : Patched.parseAmount "abc" = ⟨0, 0⟩ := by decide

example : Patched.parseAmount "-5" = ⟨-5, 0⟩ := by decide

/-- Digit characters of a positive natural (fuel-driven, fuel `n + 1` suffices). -/
def natDigitsAux : Nat → Nat → List Char
  | 0, _ => []
  | fuel + 1, n =>
    if n = 0 then [] else natDigitsAux fuel (n / 10) ++ [Char.ofNat (48 + n % 10)]

/-- Decimal digit characters of a natural number. -/
def natToChars (n : Nat) : List Char :=
  if n = 0 then ['0'] else natDigitsAux (n + 1) n

/-- Drop trailing zero decimals: rewrite `num / 10 ^ exp` into lowest decimal
terms (fuel-driven, fuel `exp` suffices). -/
def stripZeros : Nat → Int → Nat → Int × Nat
  | 0, n, e => (n, e)
  | fuel + 1, n, e =>
    if e ≠ 0 ∧ n % 10 = 0 then stripZeros fuel (n / 10) (e - 1) else (n, e)

/-- JS `String(x)` for the numbers the parsers produce: canonical decimal
rendering, no trailing fraction zeros, leading `0` before a bare fraction,
leading `-` when negative.  (JS exponent notation for magnitudes at or above
1e21 is not modelled; no theorem below evaluates the renderer there.) -/
def jsNumToString (a : JsNum) : String :=
  let p := stripZeros a.exp a.num a.exp
  let n := p.1
  let e := p.2
  let ds := natToChars n.natAbs
  let core :=
    if e = 0 then ds
    else
      let pad := (if ds.length < e + 1 then List.replicate (e + 1 - ds.length) '0' else []) ++ ds
      (pad.take (pad.length - e)) ++ ('.' :: pad.drop (pad.length - e))
  String.mk ((if n < 0 then ['-'] else []) ++ core)

example : jsNumToString ⟨750000, 0⟩ = "750000" := by decide

example : jsNumToString ⟨1205, 2⟩ = "12.05" := by decide

example : jsNumToString ⟨5, 1⟩ = "0.5" := by decide

example : jsNumToString ⟨-70, 1⟩ = "-7" := by decide

/-- C3: the patched backend's `parseAmount` (`server.js` 432-443) does NOT
discard comma separators before matching digits: its first-number regex stops
at the first comma, so the Indian-grouped input `"7,50,000"` parses as `7`,
not `750000`.  The older `parseAmount` (`server.js` 25-30, `part_002` 19-24)
strips commas first and returns `750000` as the spec demands, so the patched
variant contradicts both the spec and its own comment (which claims it
accepts strings like `"₹1,23,456.00"`). -/
theorem C3_parseAmount_indian_grouping :
    (Patched.parseAmount "7,50,000").toRat = 7 ∧
    (RuleBased.parseAmount "7,50,000").toRat = 750000 := by
  have h1 : Patched.parseAmount "7,50,000" = ⟨7, 0⟩ := by decide
  have h2 : RuleBased.parseAmount "7,50,000" = ⟨750000, 0⟩ := by decide
  rw [h1, h2]
  constructor <;> norm_num [JsNum.toRat]

/-- C10: the Amount Normalizer is idempotent on normalized values: if the
string `s` is already in normalized form — rendering its parse gives back
`s` itself — then parsing the rendering of its parse (which is how
`parseAmount(parseAmount(s))` evaluates, the inner result being stringified
by JS) equals parsing `s`, for both `parseAmount` variants. -/
theorem C10_parseAmount_idempotent (s : String)
    (h2 : jsNumToString (Patched.parseAmount s) = s)
    (h1 : jsNumToString (RuleBased.parseAmount s) = s) :
    Patched.parseAmount (jsNumToString (Patched.parseAmount s)) =
      Patched.parseAmount s ∧
    RuleBased.parseAmount (jsNumToString (RuleBased.parseAmount s)) =
      RuleBased.parseAmount s := by
  rw [h2, h1]
  exact ⟨rfl, rfl⟩

/-- C10 witness: `"750000"` is in normalized form for both variants and the
idempotence theorem applies to it. -/
theorem C10_witness :
    jsNumToString (Patched.parseAmount "750000") = "750000" ∧
    Patched.parseAmount (jsNumToString (Patched.parseAmount "750000")) =
      Patched.parseAmount "750000" :=
  ⟨by decide, (C10_parseAmount_idempotent "750000" (by decide) (by decide)).1⟩

/-- Least `n ≥ i` with `P n`, scanning at most `fuel` positions. -/
def leastSat (P : Nat → Bool) : Nat → Nat → Option Nat
  | 0, _ => none
  | fuel + 1, i => if P i then some i else leastSat P fuel (i + 1)

theorem leastSat_some (P : Nat → Bool) :
    ∀ fuel i j, leastSat P fuel i = some j →
      P j = true ∧ i ≤ j ∧ j < i + fuel ∧ ∀ k, i ≤ k → k < j → P k = false := by
  intro fuel
  induction fuel with
  | zero => intro i j h; simp [leastSat] at h
  | succ n ih =>
    intro i j h
    by_cases hp : P i
    · simp [leastSat, hp] at h
      subst h
      exact ⟨hp, le_refl _, by omega, fun k hk1 hk2 => by omega⟩
    · simp [leastSat, hp] at h
      obtain ⟨hPj, hij, hlt, hmin⟩ := ih (i + 1) j h
      refine ⟨hPj, by omega, by omega, ?_⟩
      intro k hk1 hk2
      rcases Nat.eq_or_lt_of_le hk1 with heq | hk
      · subst heq; exact Bool.not_eq_true _ ▸ (by simpa using hp)
      · exact hmin k hk hk2

theorem leastSat_none (P : Nat → Bool) :
    ∀ fuel i, leastSat P fuel i = none → ∀ k, i ≤ k → k < i + fuel → P k = false := by
  intro fuel
  induction fuel with
  | zero => intro i _ k h1 h2; omega
  | succ n ih =>
    intro i h k h1 h2
    by_cases hp : P i
    · simp [leastSat, hp] at h
    · simp [leastSat, hp] at h
      rcases Nat.eq_or_lt_of_le h1 with heq | hk
      · subst heq; simpa using hp
      · exact ih (i + 1) h k hk (by omega)

theorem leastSat_le (P : Nat → Bool) :
    ∀ fuel i n, P n = true → i ≤ n → n < i + fuel →
      ∃ j, leastSat P fuel i = some j ∧ j ≤ n := by
  intro fuel i n hn h1 h2
  cases h : leastSat P fuel i with
  | none => exact absurd (leastSat_none P fuel i h n h1 h2) (by simp [hn])
  | some j =>
    obtain ⟨hPj, _, _, hmin⟩ := leastSat_some P fuel i j h
    refine ⟨j, rfl, ?_⟩
    by_contra hc
    exact absurd (hmin n h1 (by omega)) (by simp [hn])

/-- JS `hay.indexOf(pat, start)` on char lists: least `i` in
`[min start hay.length, hay.length]` where `pat` is a prefix of `hay.drop i`. -/
def firstOccFrom (hay pat : List Char) (start : Nat) : Option Nat :=
  leastSat (fun i => pat.isPrefixOf (hay.drop i))
    (hay.length + 1 - min start hay.length) (min start hay.length)

/-- A case-insensitive occurrence of `pat` inside `text` at position `i`
(the specification-side reading of "case-insensitive substring search"). -/
def occursCIAt (text pat : List Char) (i : Nat) : Bool :=
  (toLowerList pat).isPrefixOf ((toLowerList text).drop i)

/-- One step of the source's end-marker loop (`part_002` lines 111-114):
`const i = lower.indexOf(em.toLowerCase(), p); if (i !== -1 && i < endIdx) endIdx = i`. -/
def endStep (text : List Char) (p : Nat) (acc : Nat) (em : String) : Nat :=
  match firstOccFrom (toLowerList text) (toLowerList em.data) p with
  | some i => if i < acc then i else acc
  | none => acc

namespace RuleBased

/-- Model of `sliceBetween` (`unnamed/part_002` lines 106-116): case-insensitive search
for `startMarker`; `""` when absent; otherwise the slice from the marker up to
the per-marker-minimal `indexOf` of the `endMarkers` searched from just past
the start marker, defaulting to end-of-text. -/
def sliceBetween (text startMarker : String) (endMarkers : List String) : String :=
  match firstOccFrom (toLowerList text.data) (toLowerList startMarker.data) 0 with
  | none => ""
  | some startIdx =>
    let p := startIdx + startMarker.data.length
    let endIdx := endMarkers.foldl (endStep text.data p) text.data.length
    String.mk ((text.data.drop startIdx).take (endIdx - startIdx))

end RuleBased

/-- The Table Segmenter as worded by the specification: if the start marker
has no case-insensitive occurrence the result is empty; otherwise take the
substring from the earliest start-marker occurrence up to the earliest
position at or after the end of the start marker where ANY end marker occurs,
or to end-of-text when none does. -/
def segmentSpec (text startMarker : String) (endMarkers : List String) : String :=
  match leastSat (occursCIAt text.data startMarker.data) (text.data.length + 1) 0 with
  | none => ""
  | some i =>
    let p := i + startMarker.data.length
    let j :=
      match leastSat (fun n => endMarkers.any (fun em => occursCIAt text.data em.data n))
          (text.data.length + 1 - p) p with
      | some j => j
      | none => text.data.length
    String.mk ((text.data.drop i).take (j - i))

theorem endStep_le (text : List Char) (p acc : Nat) (em : String) :
    endStep text p acc em ≤ acc := by
  unfold endStep
  cases firstOccFrom (toLowerList text) (toLowerList em.data) p with
  | none => exact le_refl _
  | some i =>
    by_cases h : i < acc
    · simp [h]; omega
    · simp [h]

theorem endStep_le_occ (text : List Char) (p acc : Nat) (em : String) (i : Nat)
    (h : firstOccFrom (toLowerList text) (toLowerList em.data) p = some i) :
    endStep text p acc em ≤ i := by
  unfold endStep
  rw [h]
  by_cases hc : i < acc
  · simp [hc]
  · simp [hc]; omega

theorem foldl_endStep_le (text : List Char) (p : Nat) :
    ∀ (ems : List String) (acc : Nat), List.foldl (endStep text p) acc ems ≤ acc := by
  intro ems
  induction ems with
  | nil => intro acc; exact le_refl _
  | cons e rest ih =>
    intro acc
    calc List.foldl (endStep text p) (endStep text p acc e) rest
        ≤ endStep text p acc e := ih _
      _ ≤ acc := endStep_le text p acc e

theorem foldl_endStep_le_occ (text : List Char) (p : Nat) :
    ∀ (ems : List String) (acc : Nat) (em : String) (i : Nat), em ∈ ems →
      firstOccFrom (toLowerList text) (toLowerList em.data) p = some i →
      List.foldl (endStep text p) acc ems ≤ i := by
  intro ems
  induction ems with
  | nil => intro acc em i hmem; exact absurd hmem (List.not_mem_nil em)
  | cons e rest ih =>
    intro acc em i hmem hF
    rcases List.mem_cons.mp hmem with heq | hmem'
    · subst heq
      calc List.foldl (endStep text p) (endStep text p acc em) rest
          ≤ endStep text p acc em := foldl_endStep_le text p rest _
        _ ≤ i := endStep_le_occ text p acc em i hF
    · exact ih _ em i hmem' hF

theorem foldl_endStep_cases (text : List Char) (p : Nat) :
    ∀ (ems : List String) (acc : Nat),
      List.foldl (endStep text p) acc ems = acc ∨
      ∃ em ∈ ems, ∃ i,
        firstOccFrom (toLowerList text) (toLowerList em.data) p = some i ∧
        List.foldl (endStep text p) acc ems = i := by
  intro ems
  induction ems with
  | nil => intro acc; exact Or.inl rfl
  | cons e rest ih =>
    intro acc
    rcases ih (endStep text p acc e) with h | ⟨em, hmem, i, hF, hr⟩
    · rw [List.foldl_cons, h]
      unfold endStep
      cases hF : firstOccFrom (toLowerList text) (toLowerList e.data) p with
      | none => exact Or.inl rfl
      | some i =>
        by_cases hc : i < acc
        · exact Or.inr ⟨e, List.mem_cons_self e rest, i, hF, by simp [hc]⟩
        · simp [hc]
    · exact Or.inr ⟨em, List.mem_cons_of_mem e hmem, i, hF, by rw [List.foldl_cons, hr]⟩

theorem firstOccFrom_lower (text : List Char) (pat : String) (p : Nat) :
    firstOccFrom (toLowerList text) (toLowerList pat.data) p =
      leastSat (occursCIAt text pat.data)
        (text.length + 1 - min p text.length) (min p text.length) := by
  have hl : (toLowerList text).length = text.length := by
    simp [toLowerList]
  unfold firstOccFrom
  rw [hl]
  rfl

theorem endFold_eq (text : List Char) (p : Nat) (ems : List String) :
    List.foldl (endStep text p) text.length ems =
      match leastSat (fun n => ems.any (fun em => occursCIAt text em.data n))
          (text.length + 1 - p) p with
      | some j => j
      | none => text.length := by
  set len := text.length with hlen
  cases h : leastSat (fun n => ems.any (fun em => occursCIAt text em.data n))
      (len + 1 - p) p with
  | some j =>
    show List.foldl (endStep text p) len ems = j
    obtain ⟨hPj, hpj, hjlt, hmin⟩ :=
      leastSat_some (fun n => ems.any (fun em => occursCIAt text em.data n)) _ _ _ h
    have hple : p ≤ len := by omega
    have hjle : j ≤ len := by omega
    obtain ⟨em, hmem, hocc⟩ := List.any_eq_true.mp hPj
    have hocc' : occursCIAt text em.data j = true := hocc
    obtain ⟨i, hFi, hij⟩ :
        ∃ i, leastSat (occursCIAt text em.data) (len + 1 - min p len) (min p len) = some i ∧
          i ≤ j := by
      rw [Nat.min_eq_left hple]
      exact leastSat_le _ _ _ _ hocc' hpj (by omega)
    have hF : firstOccFrom (toLowerList text) (toLowerList em.data) p = some i := by
      rw [firstOccFrom_lower]; exact hFi
    have hub : List.foldl (endStep text p) len ems ≤ j :=
      le_trans (foldl_endStep_le_occ text p ems len em i hmem hF) hij
    rcases foldl_endStep_cases text p ems len with hr | ⟨em', hmem', i', hF', hr⟩
    · omega
    · rw [hr]
      rw [hr] at hub
      rw [firstOccFrom_lower] at hF'
      obtain ⟨hPi', hge, hlt', _⟩ := leastSat_some _ _ _ _ hF'
      rw [Nat.min_eq_left hple] at hge
      have hany : (ems.any (fun e => occursCIAt text e.data i')) = true :=
        List.any_eq_true.mpr ⟨em', hmem', hPi'⟩
      by_contra hne
      have hi'lt : i' < j := by omega
      exact absurd (hmin i' hge hi'lt) (by simp [hany])
  | none =>
    show List.foldl (endStep text p) len ems = len
    rcases foldl_endStep_cases text p ems len with hr | ⟨em', hmem', i', hF', hr⟩
    · exact hr
    · rw [hr]
      rw [firstOccFrom_lower] at hF'
      obtain ⟨hPi', hge, hlt', _⟩ := leastSat_some _ _ _ _ hF'
      by_cases hple : p ≤ len
      · rw [Nat.min_eq_left hple] at hge hlt'
        have hany : (ems.any (fun e => occursCIAt text e.data i')) = true :=
          List.any_eq_true.mpr ⟨em', hmem', hPi'⟩
        exact absurd (leastSat_none _ _ _ h i' hge (by omega)) (by simp [hany])
      · rw [Nat.min_eq_right (by omega)] at hge hlt'
        omega

theorem sliceBetween_eq_segmentSpec (text startMarker : String) (ems : List String) :
    RuleBased.sliceBetween text startMarker ems = segmentSpec text startMarker ems := by
  unfold RuleBased.sliceBetween segmentSpec
  rw [firstOccFrom_lower text.data startMarker 0]
  simp only [Nat.zero_min, Nat.sub_zero]
  cases h : leastSat (occursCIAt text.data startMarker.data) (text.data.length + 1) 0 with
  | none => rfl
  | some i =>
    simp only
    rw [endFold_eq]

/-- C8: the Table Segmenter performs a case-insensitive substring search for
the start marker and returns `""` for every text lacking the marker; when the
marker is found it returns the substring from the marker up to the earliest
occurrence of any end marker at or after the end of the start marker, or up to
end-of-text when none occurs — stated as coincidence with the spec-side
`segmentSpec` on every input. -/
theorem C8_segment_correct :
    (∀ (text startMarker : String) (ems : List String),
        (∀ i, i ≤ text.data.length → occursCIAt text.data startMarker.data i = false) →
        RuleBased.sliceBetween text startMarker ems = "") ∧
    (∀ (text startMarker : String) (ems : List String),
        RuleBased.sliceBetween text startMarker ems = segmentSpec text startMarker ems) := by
  refine ⟨?_, fun text s ems => sliceBetween_eq_segmentSpec text s ems⟩
  intro text s ems habs
  rw [sliceBetween_eq_segmentSpec]
  unfold segmentSpec
  cases h : leastSat (occursCIAt text.data s.data) (text.data.length + 1) 0 with
  | none => rfl
  | some j =>
    obtain ⟨hPj, _, hjlt, _⟩ := leastSat_some _ _ _ _ h
    exact absurd (habs j (by omega)) (by simp [hPj])

/-- C8 witness: a text without the marker segments to the empty string. -/
theorem C8_witness :
    RuleBased.sliceBetween "some report text" "MISSING MARKER" ["END OF REPORT"] = "" :=
  C8_segment_correct.1 "some report text" "MISSING MARKER" ["END OF REPORT"] (by decide)

namespace Parser

/-- A loan row of `parser.js` (`{ type, status, line }`). -/
structure Loan where
  type : String
  status : String
  line : String
deriving DecidableEq, Repr

/-- The dedup loop of `parser.js` lines 100-108: walk the accumulated loans,
skip any whose `line` is already in `seen`, otherwise keep it and record its
`line`. -/
def dedupGo (seen : List String) : List Loan → List Loan
  | [] => []
  | l :: rest =>
    if l.line ∈ seen then dedupGo seen rest
    else l :: dedupGo (l.line :: seen) rest

/-- Model of `uniqueLoans` (`parser.js` 100-108): deduplicate by the `line` field
starting from an empty `seen` set. -/
def uniqueLoans (loans : List Loan) : List Loan := dedupGo [] loans

end Parser

theorem dedupGo_sublist : ∀ (loans : List Parser.Loan) (seen : List String),
    (Parser.dedupGo seen loans).Sublist loans := by
  intro loans
  induction loans with
  | nil => intro seen; simp [Parser.dedupGo]
  | cons l rest ih =>
    intro seen
    unfold Parser.dedupGo
    by_cases h : l.line ∈ seen
    · simp only [if_pos h]
      exact (ih seen).cons l
    · simp only [if_neg h]
      exact (ih (l.line :: seen)).cons₂ l

theorem dedupGo_notin_seen : ∀ (loans : List Parser.Loan) (seen : List String)
    (l : Parser.Loan), l ∈ Parser.dedupGo seen loans → l.line ∉ seen := by
  intro loans
  induction loans with
  | nil => intro seen l h; simp [Parser.dedupGo] at h
  | cons x rest ih =>
    intro seen l h
    unfold Parser.dedupGo at h
    by_cases hx : x.line ∈ seen
    · simp only [if_pos hx] at h
      exact ih seen l h
    · simp only [if_neg hx] at h
      rcases List.mem_cons.mp h with heq | hmem
    
      · subst heq; exact hx
      · intro hc
        exact (ih (x.line :: seen) l hmem) (List.mem_cons_of_mem _ hc)

theorem dedupGo_pairwise : ∀ (loans : List Parser.Loan) (seen : List String),
    (Parser.dedupGo seen loans).Pairwise (fun a b => a.line ≠ b.line) := by
  intro loans
  induction loans with
  | nil => intro seen; simp [Parser.dedupGo]
  | cons x rest ih =>
    intro seen
    unfold Parser.dedupGo
    by_cases hx : x.line ∈ seen
    · simp only [if_pos hx]
      exact ih seen
    · simp only [if_neg hx]
      refine List.Pairwise.cons ?_ (ih (x.line :: seen))
      intro b hb heq
      exact (dedupGo_notin_seen rest (x.line :: seen) b hb) (heq ▸ List.mem_cons_self _ _)

theorem dedupGo_keeps_first : ∀ (pre : List Parser.Loan) (loans : List Parser.Loan)
    (seen : List String) (a : Parser.Loan) (post : List Parser.Loan),
    loans = pre ++ a :: post → (∀ b ∈ pre, b.line ≠ a.line) → a.line ∉ seen →
    a ∈ Parser.dedupGo seen loans := by
  intro pre
  induction pre with
  | nil =>
    intro loans seen a post hls _ hseen
    subst hls
    show a ∈ Parser.dedupGo seen (a :: post)
    unfold Parser.dedupGo
    simp only [if_neg hseen]
    exact List.mem_cons_self _ _
  | cons p pre' ih =>
    intro loans seen a post hls hpre hseen
    subst hls
    show a ∈ Parser.dedupGo seen (p :: (pre' ++ a :: post))
    unfold Parser.dedupGo
    by_cases hp : p.line ∈ seen
    · simp only [if_pos hp]
      exact ih _ seen a post rfl (fun b hb => hpre b (List.mem_cons_of_mem _ hb)) hseen
    · simp only [if_neg hp]
      refine List.mem_cons_of_mem _ ?_
      refine ih _ (p.line :: seen) a post rfl
        (fun b hb => hpre b (List.mem_cons_of_mem _ hb)) ?_
      intro hc
      rcases List.mem_cons.mp hc with heq | hmem
      · exact hpre p (List.mem_cons_self _ _) heq.symm
      · exact hseen hmem

/-- C7: assembly deduplicates loans by exact equality of the `line` field,
preserving first-seen order: the result has pairwise distinct `line`s, is a
sublist of the input (so kept entries retain their relative input order and
nothing new is added), and whenever `a` is the first entry of the input with
its `line`, `a` is kept. -/
theorem C7_dedup_by_line (loans : List Parser.Loan) :
    (Parser.uniqueLoans loans).Pairwise (fun a b => a.line ≠ b.line) ∧
    (Parser.uniqueLoans loans).Sublist loans ∧
    ∀ (a : Parser.Loan) (pre post : List Parser.Loan),
      loans = pre ++ a :: post → (∀ b ∈ pre, b.line ≠ a.line) →
      a ∈ Parser.uniqueLoans loans := by
  refine ⟨dedupGo_pairwise loans [], dedupGo_sublist loans [], ?_⟩
  intro a pre post hls hpre
  exact dedupGo_keeps_first pre loans [] a post hls hpre (by simp)

/-- C7 witness: of two loan rows with identical `line` text exactly the first
is retained. -/
theorem C7_witness :
    Parser.uniqueLoans
        [⟨"Home Loan", "Active", "HDFC Home Loan Active"⟩,
         ⟨"Other", "Unknown", "HDFC Home Loan Active"⟩] =
      [⟨"Home Loan", "Active", "HDFC Home Loan Active"⟩] ∧
    (⟨"Home Loan", "Active", "HDFC Home Loan Active"⟩ : Parser.Loan) ∈
      Parser.uniqueLoans
        [⟨"Home Loan", "Active", "HDFC Home Loan Active"⟩,
         ⟨"Other", "Unknown", "HDFC Home Loan Active"⟩] :=
  ⟨by decide,
    (C7_dedup_by_line _).2.2 _ []
      [⟨"Other", "Unknown", "HDFC Home Loan Active"⟩] rfl (by simp)⟩

/-- JS `str.split(sep)` for a single-character separator, keeping empty
fields, with an accumulator for the current field. -/
def splitCharGo (sep : Char) : List Char → List Char → List String
  | [], acc => [String.mk acc.reverse]
  | c :: rest, acc =>
    if c = sep then String.mk acc.reverse :: splitCharGo sep rest []
    else splitCharGo sep rest (c :: acc)

/-- JS `str.split(sep)` for a single-character separator. -/
def splitChar (sep : Char) (l : List Char) : List String := splitCharGo sep l []

/-- JS `trim` on `String`. -/
def jsTrimStr (s : String) : String := String.mk (jsTrim s.data)

/-- JS `str.split(/\s{2,}/)`: fields are separated by maximal runs of two or
more whitespace characters (fuel-driven; each step consumes one character, so
`length + 1` fuel suffices). -/
def splitWs2Go : Nat → List Char → List Char → List String
  | 0, _, acc => [String.mk acc.reverse]
  | _ + 1, [], acc => [String.mk acc.reverse]
  | fuel + 1, c :: rest, acc =>
    if isJsWs c && (match rest with | d :: _ => isJsWs d | [] => false) then
      String.mk acc.reverse :: splitWs2Go fuel (rest.dropWhile isJsWs) []
    else splitWs2Go fuel rest (c :: acc)

/-- JS `str.split(/\s{2,}/)` on a char list. -/
def splitWs2 (l : List Char) : List String := splitWs2Go (l.length + 1) l []

/-- Plain substring containment (`String.prototype.includes`). -/
def containsSub (pat : List Char) : List Char → Bool
  | [] => pat.isEmpty
  | c :: rest => pat.isPrefixOf (c :: rest) || containsSub pat rest

/-- Case-insensitive substring test (`/word/i.test(h)` or
`h.toLowerCase().includes(word)`); `pat` is given lower-case. -/
def containsCI (pat : String) (h : String) : Bool :=
  containsSub pat.data (toLowerList h.data)

/-- Whether `w1` then `\s*` then `w2` matches at the head of `l`
(both words lower-case, `l` lowered by the caller). -/
def stripPfx : List Char → List Char → Option (List Char)
  | [], l => some l
  | _, [] => none
  | p :: ps, c :: cs => if c = p then stripPfx ps cs else none

/-- Head match for the two-word pattern `w1\s*w2`. -/
def gapMatchAt (w1 w2 l : List Char) : Bool :=
  match stripPfx w1 l with
  | some r => (stripPfx w2 (r.dropWhile isJsWs)).isSome
  | none => false

/-- Whether `w1\s*w2` matches anywhere in `l` (already lowered). -/
def containsGapLower (w1 w2 : List Char) : List Char → Bool
  | [] => gapMatchAt w1 w2 []
  | c :: rest => gapMatchAt w1 w2 (c :: rest) || containsGapLower w1 w2 rest

/-- Case-insensitive `/w1\s*w2/i.test(h)`. -/
def containsGapCI (w1 w2 : String) (h : String) : Bool :=
  containsGapLower w1.data w2.data (toLowerList h.data)

/-- Case-insensitive `^pat` test (`/^pat/i.test(line)`). -/
def startsWithCI (pat : String) (line : String) : Bool :=
  (toLowerList pat.data).isPrefixOf (toLowerList line.data)

namespace RuleBased

/-- The `details` object built by `parseLoansFromSummary`
(`unnamed/part_002` lines 205-220). -/
structure LoanDetails where
  lender : String
  accountType : String
  accountNumber : String
  ownership : String
  accountStatus : String
  dateOpened : String
  dateReported : String
  dateClosed : String
  sanctionAmount : JsNum
  currentBalance : JsNum
  amountOverdue : JsNum
  emiAmount : JsNum
  securityOrCollateral : String
  dpdHistory : String
deriving DecidableEq, Repr

/-- A loan entry of the rule-based backend (`{type, status, line, details}`). -/
structure Loan where
  type : String
  status : String
  line : String
  details : LoanDetails
deriving DecidableEq, Repr

/-- The header-column index record of `parseLoansFromSummary`
(`unnamed/part_002` lines 148-160); `none` models the `-1` of `findIndex`. -/
structure ColIdx where
  lender : Option Nat
  accountType : Option Nat
  accountNumber : Option Nat
  ownership : Option Nat
  accountStatus : Option Nat
  dateOpened : Option Nat
  dateReported : Option Nat
  dateClosed : Option Nat
  sanction : Option Nat
  current : Option Nat
  overdue : Option Nat
deriving Repr

/-- Model of `getCol` (`unnamed/part_002` lines 162-165): `""` for index `-1` or a
missing cell. -/
def getCol (cols : List String) : Option Nat → String
  | none => ""
  | some i => (cols.get? i).getD ""

/-- Header-line detection (`unnamed/part_002` lines 131-142): the lowered
line must contain `lender`/`member`, `account`, and `current`/`sanction`. -/
def isHeaderLine (line : String) : Bool :=
  (containsCI "lender" line || containsCI "member" line) &&
    containsCI "account" line &&
    (containsCI "current" line || containsCI "sanction" line)

/-- The column-mapping step (`unnamed/part_002` lines 148-160): `findIndex`
of each keyword pattern over the header cells. -/
def mapColumns (headerCols : List String) : ColIdx where
  lender := headerCols.findIdx? (fun h => containsCI "lender" h || containsCI "member" h)
  accountType := headerCols.findIdx? (fun h => containsGapCI "account" "type" h)
  accountNumber := headerCols.findIdx?
    (fun h => containsGapCI "account" "no" h || containsGapCI "account" "number" h)
  ownership := headerCols.findIdx? (fun h => containsCI "ownership" h)
  accountStatus := headerCols.findIdx? (fun h => containsCI "status" h)
  dateOpened := headerCols.findIdx? (fun h => containsGapCI "date" "opened" h)
  dateReported := headerCols.findIdx? (fun h => containsGapCI "date" "reported" h)
  dateClosed := headerCols.findIdx? (fun h => containsGapCI "date" "closed" h)
  sanction := headerCols.findIdx?
    (fun h => containsCI "sanction" h || containsGapCI "highest" "credit" h)
  current := headerCols.findIdx?
    (fun h => containsGapCI "current" "balance" h || containsGapCI "current" "bal" h)
  overdue := headerCols.findIdx? (fun h => containsGapCI "amount" "overdue" h)

/-- The data-row loop of `parseLoansFromSummary` (`unnamed/part_002` lines
167-222): stop on empty/`total`/details-heading lines, skip repeated summary
headings and rows with fewer than three cells or no amount cells, otherwise
build a loan entry from the mapped columns. -/
def rowsGo (idx : ColIdx) : List String → List Loan
  | [] => []
  | line :: rest =>
    if line == "" || startsWithCI "total" line then []
    else if startsWithCI "summary: credit account information" line then rowsGo idx rest
    else if startsWithCI "credit account information details" line then []
    else
      let cols := ((splitWs2 line.data).map jsTrimStr).filter (· != "")
      if cols.length < 3 then rowsGo idx rest
      else
        let lender := getCol cols idx.lender
        let accountType := getCol cols idx.accountType
        let accountNumber := getCol cols idx.accountNumber
        let ownership := getCol cols idx.ownership
        let accountStatus := getCol cols idx.accountStatus
        let dateOpened := getCol cols idx.dateOpened
        let dateReported := getCol cols idx.dateReported
        let dateClosed := getCol cols idx.dateClosed
        let sanctionStr := getCol cols idx.sanction
        let currentStr := getCol cols idx.current
        let overdueStr := getCol cols idx.overdue
        if sanctionStr == "" && currentStr == "" && overdueStr == "" then rowsGo idx rest
        else
          let type := if accountType == "" then "Account" else accountType
          let status := if accountStatus == "" then "Unknown" else accountStatus
          { type := type, status := status,
            line := lender ++ " • " ++ type ++ " • " ++ status,
            details :=
              { lender := lender, accountType := accountType,
                accountNumber := accountNumber, ownership := ownership,
                accountStatus := accountStatus, dateOpened := dateOpened,
                dateReported := dateReported, dateClosed := dateClosed,
                sanctionAmount := parseAmount sanctionStr,
                currentBalance := parseAmount currentStr,
                amountOverdue := parseAmount overdueStr,
                emiAmount := JsNum.zero,
                securityOrCollateral := "", dpdHistory := "" } } :: rowsGo idx rest

/-- Model of `parseLoansFromSummary` (`unnamed/part_002` lines 119-225): segment the
`SUMMARY: CREDIT ACCOUNT INFORMATION` block, locate the header line, map its
columns, and walk the data rows. -/
def parseLoansFromSummary (text : String) : List Loan :=
  let block := sliceBetween text "SUMMARY: CREDIT ACCOUNT INFORMATION"
    ["CREDIT ACCOUNT INFORMATION DETAILS", "CREDIT ENQUIRIES", "SUMMARY: CREDIT ENQUIRIES"]
  if block == "" then []
  else
    let lines := ((splitChar '\n' block.data).map jsTrimStr).filter (· != "")
    match lines.findIdx? isHeaderLine with
    | none => []
    | some hi =>
      let headerLine := lines.getD hi ""
      let headerCols := (splitWs2 headerLine.data).map jsTrimStr
      rowsGo (mapColumns headerCols) (lines.drop (hi + 1))

end RuleBased

/-- The synthetic report block of the end-to-end property: the summary
marker, the header line, and one data row. -/
def sampleReport : String :=
  "SUMMARY: CREDIT ACCOUNT INFORMATION\nLender   Account Type   Account Status   Sanction Amt / Highest Credit   Current Balance\nHDFC Bank   Home Loan   Active   7,50,000   3,20,000"

set_option maxRecDepth 8000 in
/-- C6: on the synthetic block with the given header and the single data row
`HDFC Bank   Home Loan   Active   7,50,000   3,20,000`, the rule-based table
parser produces exactly one loan, with `type = "Home Loan"`,
`status = "Active"`, `details.sanctionAmount = 750000` and
`details.currentBalance = 320000`. -/
theorem C6_row_extraction :
    RuleBased.parseLoansFromSummary sampleReport =
      [{ type := "Home Loan", status := "Active",
         line := "HDFC Bank • Home Loan • Active",
         details :=
           { lender := "HDFC Bank", accountType := "Home Loan",
             accountNumber := "", ownership := "", accountStatus := "Active",
             dateOpened := "", dateReported := "", dateClosed := "",
             sanctionAmount := ⟨750000, 0⟩, currentBalance := ⟨320000, 0⟩,
             amountOverdue := ⟨0, 0⟩, emiAmount := ⟨0, 0⟩,
             securityOrCollateral := "", dpdHistory := "" } }] ∧
    (JsNum.mk 750000 0).toRat = 750000 ∧ (JsNum.mk 320000 0).toRat = 320000 := by
  refine ⟨by decide, ?_, ?_⟩ <;> norm_num [JsNum.toRat]

/-- Case-insensitive literal prefix strip (`pat` given lower-case),
returning the remainder after the prefix. -/
def stripPfxCI : List Char → List Char → Option (List Char)
  | [], l => some l
  | _, [] => none
  | p :: ps, c :: cs => if c.toLower = p then stripPfxCI ps cs else none

/-- Regex piece `\s+`: at least one whitespace character, consumed greedily (the
following literal of every source pattern starts with a non-whitespace
character, so the greedy run is the only viable choice). -/
def wsRun1 (l : List Char) : Option (List Char) :=
  match l with
  | c :: rest => if isJsWs c then some (rest.dropWhile isJsWs) else none
  | [] => none

/-- Attempt `[\d,]+` at offset `k` of `l`: succeeds when the character there
is a digit or comma, capturing the maximal digit/comma run. -/
def checkDigComma (l : List Char) (k : Nat) : Option (List Char) :=
  match l.drop k with
  | c :: _ =>
    if isDigitChar c || c = ',' then
      some ((l.drop k).takeWhile (fun d => isDigitChar d || d = ','))
    else none
  | [] => none

/-- Greedy-with-backtracking `[^\d]{0,30}([\d,]+)`: try the largest feasible
gap first, then shorter ones, as the regex engine does. -/
def gapDigitsGo (l : List Char) : Nat → Option (List Char)
  | 0 => checkDigComma l 0
  | k + 1 =>
    match checkDigComma l (k + 1) with
    | some r => some r
    | none => gapDigitsGo l k

/-- Regex piece `[^\d]{0,30}([\d,]+)`: capture of the digit/comma group. -/
def gapDigits (l : List Char) : Option (List Char) :=
  gapDigitsGo l (min 30 ((l.takeWhile (fun c => !isDigitChar c)).length))

namespace Patched

/-- Model of `text.replace(/\r/g, "").replace(/ /g, " ")`
(`server.js` line 500). -/
def cleanCRNbsp (l : List Char) : List Char :=
  (l.filter (fun c => c ≠ '\r')).map (fun c => if c = Char.ofNat 160 then ' ' else c)

/-- Head match of `/Total\s+Current\s+Bal\.?\s*amt[^\d]{0,30}([\d,]+)/i`,
returning the captured digit/comma group. -/
def matchTCB1At (l : List Char) : Option (List Char) := do
  let r1 ← stripPfxCI "total".data l
  let r2 ← wsRun1 r1
  let r3 ← stripPfxCI "current".data r2
  let r4 ← wsRun1 r3
  let r5 ← stripPfxCI "bal".data r4
  let r6 := match r5 with
    | '.' :: t => t
    | _ => r5
  let r7 := r6.dropWhile isJsWs
  let r8 ← stripPfxCI "amt".data r7
  gapDigits r8

/-- Leftmost match of the first anchor pattern. -/
def findTCB1 : List Char → Option (List Char)
  | [] => none
  | c :: rest =>
    match matchTCB1At (c :: rest) with
    | some cap => some cap
    | none => findTCB1 rest

/-- Head match of `/Total\s+Current\s+Balance[^\d]{0,30}([\d,]+)/i`. -/
def matchTCB2At (l : List Char) : Option (List Char) := do
  let r1 ← stripPfxCI "total".data l
  let r2 ← wsRun1 r1
  let r3 ← stripPfxCI "current".data r2
  let r4 ← wsRun1 r3
  let r5 ← stripPfxCI "balance".data r4
  gapDigits r5

/-- Leftmost match of the second anchor pattern. -/
def findTCB2 : List Char → Option (List Char)
  | [] => none
  | c :: rest =>
    match matchTCB2At (c :: rest) with
    | some cap => some cap
    | none => findTCB2 rest

/-- Model of `extractTotalCurrentBalance` (`server.js` lines 499-513): try the two
anchor patterns in order on the cleaned text; on a match return
`parseAmount` of the captured group, else `0`. -/
def extractTotalCurrentBalance (text : String) : JsNum :=
  let t := cleanCRNbsp text.data
  match findTCB1 t with
  | some cap => parseAmount (String.mk cap)
  | none =>
    match findTCB2 t with
    | some cap => parseAmount (String.mk cap)
    | none => JsNum.zero

/-- The `totals` object of the canonical result. -/
structure Totals where
  loanSanctioned : JsNum
  loanOutstanding : JsNum
  cardLimit : JsNum
  cardOutstanding : JsNum
deriving DecidableEq, Repr

/-- The totals override of `/analyze` (`server.js` lines 902-906):
`ai.totals.loanOutstanding = totalCurrentBal || ai.totals.loanOutstanding || 0`;
no other totals field is touched. -/
def overrideTotals (text : String) (t : Totals) : Totals :=
  { t with
    loanOutstanding :=
      jsOrNum (jsOrNum (extractTotalCurrentBalance text) t.loanOutstanding) JsNum.zero }

end Patched

/-- C1 (amended): in the final pipeline only `loanOutstanding` has an anchor
candidate, and the override applies the precedence
nonzero-anchor > nonzero-external > 0: a nonzero anchor extraction wins; when
both anchor patterns are absent the field falls back to the external
(AI-normalized) candidate, and to `0` when that is falsy too; the three other
totals fields are untouched (per-field independence).  There is no rule-sum
stage in this variant, and a present-but-zero anchor is indistinguishable
from an absent one. -/
theorem C1_override_precedence (text : String) (t : Patched.Totals) :
    (∀ v : JsNum, Patched.extractTotalCurrentBalance text = v → v.truthy = true →
      (Patched.overrideTotals text t).loanOutstanding = v) ∧
    (Patched.findTCB1 (Patched.cleanCRNbsp text.data) = none →
      Patched.findTCB2 (Patched.cleanCRNbsp text.data) = none →
      (Patched.overrideTotals text t).loanOutstanding =
        (if t.loanOutstanding.truthy then t.loanOutstanding else JsNum.zero)) ∧
    (Patched.overrideTotals text t).loanSanctioned = t.loanSanctioned ∧
    (Patched.overrideTotals text t).cardLimit = t.cardLimit ∧
    (Patched.overrideTotals text t).cardOutstanding = t.cardOutstanding := by
  refine ⟨?_, ?_, rfl, rfl, rfl⟩
  · intro v hv htr
    simp [Patched.overrideTotals, jsOrNum, hv, htr]
  · intro h1 h2
    have hz : Patched.extractTotalCurrentBalance text = JsNum.zero := by
      unfold Patched.extractTotalCurrentBalance
      simp only [h1, h2]
    simp [Patched.overrideTotals, hz, jsOrNum, JsNum.truthy, JsNum.zero]

/-- C1 witness: a nonzero anchor phrase wins over a nonzero external
candidate, and the other fields pass through. -/
theorem C1_witness :
    (Patched.overrideTotals "Total Current Bal. amt 750000"
        { loanSanctioned := ⟨111, 0⟩, loanOutstanding := ⟨500, 0⟩,
          cardLimit := ⟨222, 0⟩, cardOutstanding := ⟨333, 0⟩ }).loanOutstanding =
      ⟨750000, 0⟩ ∧
    (Patched.overrideTotals "Total Current Bal. amt 750000"
        { loanSanctioned := ⟨111, 0⟩, loanOutstanding := ⟨500, 0⟩,
          cardLimit := ⟨222, 0⟩, cardOutstanding := ⟨333, 0⟩ }).loanSanctioned =
      ⟨111, 0⟩ :=
  ⟨(C1_override_precedence "Total Current Bal. amt 750000" _).1 ⟨750000, 0⟩
      (by decide) (by decide),
    (C1_override_precedence "Total Current Bal. amt 750000" _).2.2.1⟩

/-- C1 counterexample: an anchor candidate that EXISTS with value `0`
(pattern matched, captured group `"0"`) does not win: the assembled total is
the external candidate `500`, not the anchor value `0`, because the `||`
chain conflates a zero anchor with an absent one. -/
theorem C1_counterexample :
    Patched.findTCB1 (Patched.cleanCRNbsp ("Total Current Bal. amt 0" : String).data) =
      some ['0'] ∧
    (Patched.parseAmount "0").toRat = 0 ∧
    (Patched.overrideTotals "Total Current Bal. amt 0"
        { loanSanctioned := ⟨0, 0⟩, loanOutstanding := ⟨500, 0⟩,
          cardLimit := ⟨0, 0⟩, cardOutstanding := ⟨0, 0⟩ }).loanOutstanding.toRat =
      500 := by
  refine ⟨by decide, ?_, ?_⟩
  · have h : Patched.parseAmount "0" = ⟨0, 0⟩ := by decide
    rw [h]; norm_num [JsNum.toRat]
  · have h : (Patched.overrideTotals "Total Current Bal. amt 0"
        { loanSanctioned := ⟨0, 0⟩, loanOutstanding := ⟨500, 0⟩,
          cardLimit := ⟨0, 0⟩, cardOutstanding := ⟨0, 0⟩ }).loanOutstanding =
        ⟨500, 0⟩ := by decide
    rw [h]; norm_num [JsNum.toRat]

namespace Patched

/-- The normalized result of `analyzeWithAI` as far as the endpoint touches
it afterwards (`score`, `enquiryCount`, `dpd`, `totals`; the `loans` and
`enquiries` arrays are carried through the override step unchanged and play
no role in the properties below). -/
structure AiParsed where
  score : JsNum
  enquiryCount : JsNum
  dpd : String
  totals : Totals
deriving DecidableEq, Repr

/-- The JSON responses of `/analyze` (`server.js` lines 838-925):
`unreadable` is the `"Unreadable PDF …"` failure, `aiError` the
`"AI parsing error: …"` failure, `success` the `"PDF parsed successfully"`
response carrying the result. -/
inductive Response where
  | unreadable
  | aiError
  | success (result : AiParsed)
deriving DecidableEq, Repr

/-- The outcome of the external collaborators for one document:
`pdfText` is the text layer from `pdf-parse` (`|| ""` applied), `ocr` is
`some s` when `performOcrOnPdf` resolved with `s` and `none` when it threw,
`ai` is `some r` when `analyzeWithAI` resolved (normalized) and `none` when
it threw. -/
structure AnalyzeInput where
  pdfText : String
  ocr : Option String
  ai : Option AiParsed

/-- The text-acquisition step of `/analyze` (`server.js` lines 849-870):
when the pdf text is empty or its trimmed length is under 300, attempt OCR;
adopt the OCR text only when it is truthy and its trimmed length exceeds
100, keep the original text otherwise (also when the OCR call threw). -/
def acquiredText (inp : AnalyzeInput) : String :=
  if inp.pdfText = "" ∨ (jsTrim inp.pdfText.data).length < 300 then
    match inp.ocr with
    | some o => if o ≠ "" ∧ 100 < (jsTrim o.data).length then o else inp.pdfText
    | none => inp.pdfText
  else inp.pdfText

/-- Model of `/analyze` after the file-upload check (`server.js` lines 847-912):
acquisition, the 100-character unreadability floor, the AI call with its
error short-circuit, and the totals override on success. -/
def analyzePipeline (inp : AnalyzeInput) : Response :=
  let t := acquiredText inp
  if t = "" ∨ (jsTrim t.data).length < 100 then Response.unreadable
  else
    match inp.ai with
    | none => Response.aiError
    | some ai => Response.success { ai with totals := overrideTotals t ai.totals }

end Patched

/-- C9 (amended): the OCR step is non-fatal and keeps the original text when
the OCR call threw, or returned an empty string, or returned text of trimmed
length at most 100; but when OCR is attempted and returns truthy text of
trimmed length above 100 the pipeline ADOPTS the OCR text — even when that is
less text than currently held; the acquisition failure is reported exactly
when the retained text is empty or under the 100-character floor. -/
theorem C9_ocr_soft_failure (inp : Patched.AnalyzeInput) :
    (inp.ocr = none → Patched.acquiredText inp = inp.pdfText) ∧
    (∀ o, inp.ocr = some o → (o = "" ∨ (jsTrim o.data).length ≤ 100) →
      Patched.acquiredText inp = inp.pdfText) ∧
    (∀ o, inp.ocr = some o →
      (inp.pdfText = "" ∨ (jsTrim inp.pdfText.data).length < 300) →
      o ≠ "" → 100 < (jsTrim o.data).length →
      Patched.acquiredText inp = o) ∧
    (Patched.analyzePipeline inp = Patched.Response.unreadable ↔
      (Patched.acquiredText inp = "" ∨
        (jsTrim (Patched.acquiredText inp).data).length < 100)) := by
  refine ⟨?_, ?_, ?_, ?_⟩
  · intro h
    unfold Patched.acquiredText
    rw [h]
    split <;> rfl
  · intro o ho hsmall
    unfold Patched.acquiredText
    rw [ho]
    split
    · have : ¬(o ≠ "" ∧ 100 < (jsTrim o.data).length) := by
        rcases hsmall with h | h
        · intro hc; exact hc.1 h
        · intro hc; omega
      simp [this]
    · rfl
  · intro o ho hshort hne hbig
    unfold Patched.acquiredText
    rw [ho, if_pos hshort]
    simp [hne, hbig]
  · unfold Patched.analyzePipeline
    constructor
    · intro h
      by_contra hc
      rw [if_neg hc] at h
      cases hai : inp.ai with
      | none => rw [hai] at h; exact absurd h (by simp)
      | some a => rw [hai] at h; exact absurd h (by simp)
    · intro h
      rw [if_pos h]

/-- C9 witness: with a 5-character text and a failing OCR call, the original
text is kept and the document fails with the acquisition error. -/
theorem C9_witness :
    Patched.acquiredText { pdfText := "short", ocr := none, ai := none } = "short" ∧
    Patched.analyzePipeline { pdfText := "short", ocr := none, ai := none } =
      Patched.Response.unreadable :=
  ⟨(C9_ocr_soft_failure _).1 rfl,
    (C9_ocr_soft_failure
        { pdfText := "short", ocr := none, ai := none }).2.2.2.mpr (by decide)⟩

/-- The original text of the C9 counterexample: 299 characters, so OCR is
attempted. -/
def origText299 : String := String.mk (List.replicate 299 'a')

/-- The OCR outcome of the C9 counterexample: 150 characters — LESS text
than currently held, but above the 100-character adoption threshold. -/
def ocrText150 : String := String.mk (List.replicate 150 'b')

set_option maxRecDepth 8000 in
/-- C9 counterexample: OCR is attempted (trimmed original under 300) and
returns LESS text than currently held (150 < 299), yet the pipeline does NOT
keep the original text: it adopts the shorter OCR text, because the code
keeps the original only when the OCR text is at most 100 characters after
trimming. -/
theorem C9_counterexample :
    (jsTrim origText299.data).length < 300 ∧
    (jsTrim ocrText150.data).length < (jsTrim origText299.data).length ∧
    Patched.acquiredText
        { pdfText := origText299, ocr := some ocrText150, ai := none } = ocrText150 ∧
    ocrText150 ≠ origText299 := by
  refine ⟨by decide, by decide, by decide, by decide⟩

/-- C2 (amended): whenever the retained text passes the readability floor and
the external interpreter call errors, `/analyze` reports the document-level
`"AI parsing error"` failure — it does NOT fall back to the anchor-phrase or
rule-based candidates and produces no partial success. -/
theorem C2_ai_error_is_fatal (inp : Patched.AnalyzeInput)
    (hread : ¬(Patched.acquiredText inp = "" ∨
      (jsTrim (Patched.acquiredText inp).data).length < 100))
    (hai : inp.ai = none) :
    Patched.analyzePipeline inp = Patched.Response.aiError := by
  unfold Patched.analyzePipeline
  rw [if_neg hread, hai]

/-- A 310-character document that carries a perfectly usable anchor phrase
(`Total Current Bal. amt 750000`). -/
def anchorDoc : String :=
  "Total Current Bal. amt 750000 " ++ String.mk (List.replicate 280 'x')

set_option maxRecDepth 8000 in
/-- C2 witness: on the anchor document with an erroring interpreter the
pipeline reports the AI failure. -/
theorem C2_witness :
    Patched.analyzePipeline { pdfText := anchorDoc, ocr := some "", ai := none } =
      Patched.Response.aiError :=
  C2_ai_error_is_fatal { pdfText := anchorDoc, ocr := some "", ai := none }
    (by decide) rfl

set_option maxRecDepth 8000 in
/-- C2 counterexample: the claim demands a partial success built from the
anchor-phrase candidate when the interpreter errors; but on a document whose
anchor candidate is present and usable (it extracts to `750000`), an
interpreter error still yields the document-level failure response, not a
partial success. -/
theorem C2_counterexample :
    (Patched.extractTotalCurrentBalance anchorDoc).toRat = 750000 ∧
    Patched.analyzePipeline { pdfText := anchorDoc, ocr := some "", ai := none } =
      Patched.Response.aiError := by
  constructor
  · have h : Patched.extractTotalCurrentBalance anchorDoc = ⟨750000, 0⟩ := by decide
    rw [h]; norm_num [JsNum.toRat]
  · decide

theorem takeWhile_nil_of_none (p : Char → Bool) (l : List Char)
    (h : ∀ c ∈ l, p c = false) : l.takeWhile p = [] := by
  cases l with
  | nil => rfl
  | cons c r => simp [List.takeWhile_cons, h c (List.mem_cons_self _ _)]

theorem mem_of_jsTrim {c : Char} {l : List Char} (h : c ∈ jsTrim l) : c ∈ l := by
  unfold jsTrim at h
  rw [List.mem_reverse] at h
  have h1 := (List.dropWhile_sublist _).subset h
  rw [List.mem_reverse] at h1
  exact (List.dropWhile_sublist _).subset h1

theorem jsSign_no_minus (l : List Char) (h : '-' ∉ l) :
    (jsSign l).1 = false ∧ ∀ c ∈ (jsSign l).2, c ∈ l := by
  cases l with
  | nil => exact ⟨rfl, by simp [jsSign]⟩
  | cons c r =>
    have hc : c ≠ '-' := fun hc => h (hc ▸ List.mem_cons_self _ _)
    simp only [jsSign, if_neg hc]
    by_cases hp : c = '+'
    · simp only [if_pos hp]
      exact ⟨trivial, fun d hd => List.mem_cons_of_mem _ hd⟩
    · simp only [if_neg hp]
      exact ⟨trivial, fun d hd => hd⟩

theorem jsMantissa_false_nonneg (l2 : List Char) (v : JsNum)
    (hv : jsMantissa false l2 = some v) : 0 ≤ v.num := by
  simp only [jsMantissa] at hv
  by_cases hc : ((l2.takeWhile isDigitChar).isEmpty &&
      (fracDigits (l2.dropWhile isDigitChar)).isEmpty) = true
  · rw [if_pos hc] at hv
    exact absurd hv (by simp)
  · rw [if_neg hc] at hv
    simp only [Option.some.injEq] at hv
    subst hv
    simp
    positivity

theorem jsParseFloat_nonneg (l : List Char) (h : '-' ∉ l) (v : JsNum)
    (hv : jsParseFloat l = some v) : 0 ≤ v.num := by
  have h1 : '-' ∉ l.dropWhile isJsWs :=
    fun hc => h ((List.dropWhile_sublist _).subset hc)
  unfold jsParseFloat at hv
  rw [(jsSign_no_minus _ h1).1] at hv
  exact jsMantissa_false_nonneg _ v hv

theorem jsSign_snd_subset (l : List Char) : ∀ c ∈ (jsSign l).2, c ∈ l := by
  cases l with
  | nil => simp [jsSign]
  | cons x r =>
    simp only [jsSign]
    by_cases h1 : x = '-'
    · rw [if_pos h1]; exact fun c hc => List.mem_cons_of_mem _ hc
    · rw [if_neg h1]
      by_cases h2 : x = '+'
      · rw [if_pos h2]; exact fun c hc => List.mem_cons_of_mem _ hc
      · rw [if_neg h2]; exact fun c hc => hc

theorem fracDigits_nil_of_no_digit (r1 : List Char)
    (h : ∀ c ∈ r1, isDigitChar c = false) : fracDigits r1 = [] := by
  cases r1 with
  | nil => rfl
  | cons c r2 =>
    simp only [fracDigits]
    by_cases hdot : c = '.'
    · rw [if_pos hdot]
      exact takeWhile_nil_of_none _ _ (fun d hd => h d (List.mem_cons_of_mem _ hd))
    · rw [if_neg hdot]

theorem jsMantissa_no_digit (neg : Bool) (l2 : List Char)
    (h : ∀ c ∈ l2, isDigitChar c = false) : jsMantissa neg l2 = none := by
  simp only [jsMantissa]
  have hd1 : l2.takeWhile isDigitChar = [] := takeWhile_nil_of_none _ _ h
  have hd2 : fracDigits (l2.dropWhile isDigitChar) = [] :=
    fracDigits_nil_of_no_digit _ (fun c hc => h c ((List.dropWhile_sublist _).subset hc))
  rw [hd1, hd2]
  simp

theorem jsParseFloat_no_digit (l : List Char)
    (h : ∀ c ∈ l, isDigitChar c = false) : jsParseFloat l = none := by
  unfold jsParseFloat
  refine jsMantissa_no_digit _ _ (fun c hc => h c ?_)
  exact (List.dropWhile_sublist _).subset (jsSign_snd_subset _ c hc)

theorem readNum_false_nonneg (l : List Char) : 0 ≤ (Patched.readNum false l).num := by
  unfold Patched.readNum
  simp
  try positivity

theorem firstNumMatch_nonneg : ∀ (l : List Char), '-' ∉ l → ∀ v : JsNum,
    Patched.firstNumMatch l = some v → 0 ≤ v.num := by
  intro l
  induction l with
  | nil => intro _ v h; simp [Patched.firstNumMatch] at h
  | cons c rest ih =>
    intro hm v h
    have hc : c ≠ '-' := fun hceq => hm (hceq ▸ List.mem_cons_self _ _)
    unfold Patched.firstNumMatch at h
    by_cases hd : isDigitChar c = true
    · rw [if_pos hd] at h
      simp only [Option.some.injEq] at h
      rw [← h]
      exact readNum_false_nonneg _
    · rw [if_neg hd] at h
      have hbeq : (c == '-') = false := by simp [hc]
      rw [hbeq, Bool.false_and] at h
      simp only [Bool.false_eq_true, if_false] at h
      exact ih (fun hmem => hm (List.mem_cons_of_mem _ hmem)) v h

theorem firstNumMatch_none_of_no_digit : ∀ l : List Char,
    (∀ c ∈ l, isDigitChar c = false) → Patched.firstNumMatch l = none := by
  intro l
  induction l with
  | nil => intro _; rfl
  | cons c rest ih =>
    intro h
    unfold Patched.firstNumMatch
    rw [if_neg (by simp [h c (List.mem_cons_self _ _)])]
    have hhd : Patched.headDigit rest = false := by
      cases rest with
      | nil => rfl
      | cons d r =>
        simp [Patched.headDigit, h d (List.mem_cons_of_mem _ (List.mem_cons_self _ _))]
    rw [hhd, Bool.and_false]
    simp only [Bool.false_eq_true, if_false]
    exact ih (fun d hd => h d (List.mem_cons_of_mem _ hd))

theorem parseAmount_nonneg (s : String) (h : '-' ∉ s.data) :
    0 ≤ (Patched.parseAmount s).num := by
  have ht : '-' ∉ jsTrim s.data := fun hc => h (mem_of_jsTrim hc)
  simp only [Patched.parseAmount]
  cases hf : Patched.firstNumMatch (jsTrim s.data) with
  | some v => exact firstNumMatch_nonneg _ ht v hf
  | none =>
    cases hp : jsParseFloat
        ((jsTrim s.data).filter (fun c => isDigitChar c || c == '.' || c == '-')) with
    | some v =>
      refine jsParseFloat_nonneg _ ?_ v hp
      exact fun hc => ht (List.mem_of_mem_filter hc)
    | none => decide

theorem parseAmount_no_digit (s : String) (h : ∀ c ∈ s.data, isDigitChar c = false) :
    Patched.parseAmount s = JsNum.zero := by
  simp only [Patched.parseAmount]
  have ht : ∀ c ∈ jsTrim s.data, isDigitChar c = false :=
    fun c hc => h c (mem_of_jsTrim hc)
  rw [firstNumMatch_none_of_no_digit _ ht]
  rw [jsParseFloat_no_digit _ (fun c hc => ht c (List.mem_of_mem_filter hc))]

namespace Patched

/-- JS `x || null` on strings: `null`/missing and `""` collapse to `null`. -/
def strOrNull : Option String → Option String
  | none => none
  | some s => if s = "" then none else some s

/-- The raw `details` object of one loan as delivered by the external
interpreter, before normalization (`server.js` line 782).  Every JSON value
is represented by its JS string image (`String(x)`), `none` standing for
`null`/missing; the secondary snake-case fallback keys of the `??` chains
(`total_write_off_amount`, …) are collapsed into the one field the chain
resolves to.  The `rateOfInterest` alternates and the tenure fields
(`repaymentTenureRaw`/`repaymentTenure`), which are nullable or non-numeric
and not among the numeric leaves of the canonical record, are not modelled. -/
structure RawDetails where
  lender : Option String
  accountType : Option String
  accountNumber : Option String
  ownership : Option String
  accountStatus : Option String
  dateOpened : Option String
  dateReported : Option String
  dateClosed : Option String
  sanctionAmount : Option String
  currentBalance : Option String
  amountOverdue : Option String
  emiAmount : Option String
  securityOrCollateral : Option String
  dpdHistory : Option String
  totalWriteOffAmount : Option String
  principalWriteOff : Option String
  settlementAmount : Option String

/-- The normalized `details` object (`server.js` lines 784-824). -/
structure NormDetails where
  lender : Option String
  accountType : Option String
  accountNumber : Option String
  ownership : Option String
  accountStatus : Option String
  dateOpened : Option String
  dateReported : Option String
  dateClosed : Option String
  sanctionAmount : JsNum
  currentBalance : JsNum
  amountOverdue : JsNum
  emiAmount : JsNum
  securityOrCollateral : Option String
  dpdHistory : Option String
  totalWriteOffAmount : JsNum
  principalWriteOff : JsNum
  settlementAmount : JsNum
deriving DecidableEq, Repr

/-- The per-loan normalization of `analyzeWithAI` (`server.js` lines
781-830): strings collapse through `|| null`, the four usual amounts go
through `parseAmount`, and the write-off/settlement amounts map `null` to `0`
and everything else through `parseAmount`. -/
def normalizeDetails (d : RawDetails) : NormDetails where
  lender := strOrNull d.lender
  accountType := strOrNull d.accountType
  accountNumber := strOrNull d.accountNumber
  ownership := strOrNull d.ownership
  accountStatus := strOrNull d.accountStatus
  dateOpened := strOrNull d.dateOpened
  dateReported := strOrNull d.dateReported
  dateClosed := strOrNull d.dateClosed
  sanctionAmount := parseAmountOpt d.sanctionAmount
  currentBalance := parseAmountOpt d.currentBalance
  amountOverdue := parseAmountOpt d.amountOverdue
  emiAmount := parseAmountOpt d.emiAmount
  securityOrCollateral := strOrNull d.securityOrCollateral
  dpdHistory := strOrNull d.dpdHistory
  totalWriteOffAmount := parseAmountOpt d.totalWriteOffAmount
  principalWriteOff := parseAmountOpt d.principalWriteOff
  settlementAmount := parseAmountOpt d.settlementAmount

/-- The raw `totals` object from the interpreter, values as JS string
images. -/
structure RawTotals where
  loanSanctioned : Option String
  loanOutstanding : Option String
  cardLimit : Option String
  cardOutstanding : Option String

/-- The totals normalization of `analyzeWithAI` (`server.js` lines 768-773):
each field is coerced through `parseAmount`. -/
def normalizeTotals (t : RawTotals) : Totals where
  loanSanctioned := parseAmountOpt t.loanSanctioned
  loanOutstanding := parseAmountOpt t.loanOutstanding
  cardLimit := parseAmountOpt t.cardLimit
  cardOutstanding := parseAmountOpt t.cardOutstanding

end Patched

theorem parseAmountOpt_nonneg (o : Option String)
    (h : ∀ s, o = some s → '-' ∉ s.data) : 0 ≤ (Patched.parseAmountOpt o).toRat := by
  cases o with
  | none => norm_num [Patched.parseAmountOpt, JsNum.zero, JsNum.toRat]
  | some s => exact JsNum.toRat_nonneg _ (parseAmount_nonneg s (h s rfl))

/-- C4 (amended): the numeric leaves of the normalized result are always
well-defined rationals, never `NaN` — a string without a digit parses to
`0` — and they are non-negative PROVIDED the corresponding raw value carries
no minus sign; `parseAmount` deliberately accepts a leading minus, so a
negative interpreter value passes through to the result (the unconditional
non-negativity the claim states does not hold). -/
theorem C4_numeric_leaves (d : Patched.RawDetails) (t : Patched.RawTotals)
    (hd : ∀ s : String,
      (d.sanctionAmount = some s ∨ d.currentBalance = some s ∨
        d.amountOverdue = some s ∨ d.emiAmount = some s ∨
        d.totalWriteOffAmount = some s ∨ d.principalWriteOff = some s ∨
        d.settlementAmount = some s) → '-' ∉ s.data)
    (ht : ∀ s : String,
      (t.loanSanctioned = some s ∨ t.loanOutstanding = some s ∨
        t.cardLimit = some s ∨ t.cardOutstanding = some s) → '-' ∉ s.data) :
    (0 ≤ (Patched.normalizeDetails d).sanctionAmount.toRat ∧
      0 ≤ (Patched.normalizeDetails d).currentBalance.toRat ∧
      0 ≤ (Patched.normalizeDetails d).amountOverdue.toRat ∧
      0 ≤ (Patched.normalizeDetails d).emiAmount.toRat ∧
      0 ≤ (Patched.normalizeDetails d).totalWriteOffAmount.toRat ∧
      0 ≤ (Patched.normalizeDetails d).principalWriteOff.toRat ∧
      0 ≤ (Patched.normalizeDetails d).settlementAmount.toRat) ∧
    (0 ≤ (Patched.normalizeTotals t).loanSanctioned.toRat ∧
      0 ≤ (Patched.normalizeTotals t).loanOutstanding.toRat ∧
      0 ≤ (Patched.normalizeTotals t).cardLimit.toRat ∧
      0 ≤ (Patched.normalizeTotals t).cardOutstanding.toRat) ∧
    (∀ s : String, (∀ c ∈ s.data, isDigitChar c = false) →
      Patched.parseAmount s = JsNum.zero) := by
  refine ⟨⟨?_, ?_, ?_, ?_, ?_, ?_, ?_⟩, ⟨?_, ?_, ?_, ?_⟩, parseAmount_no_digit⟩
  · exact parseAmountOpt_nonneg _ (fun s hs => hd s (Or.inl hs))
  · exact parseAmountOpt_nonneg _ (fun s hs => hd s (Or.inr (Or.inl hs)))
  · exact parseAmountOpt_nonneg _ (fun s hs => hd s (Or.inr (Or.inr (Or.inl hs))))
  · exact parseAmountOpt_nonneg _ (fun s hs => hd s (Or.inr (Or.inr (Or.inr (Or.inl hs)))))
  · exact parseAmountOpt_nonneg _
      (fun s hs => hd s (Or.inr (Or.inr (Or.inr (Or.inr (Or.inl hs))))))
  · exact parseAmountOpt_nonneg _
      (fun s hs => hd s (Or.inr (Or.inr (Or.inr (Or.inr (Or.inr (Or.inl hs)))))))
  · exact parseAmountOpt_nonneg _
      (fun s hs => hd s (Or.inr (Or.inr (Or.inr (Or.inr (Or.inr (Or.inr hs)))))))
  · exact parseAmountOpt_nonneg _ (fun s hs => ht s (Or.inl hs))
  · exact parseAmountOpt_nonneg _ (fun s hs => ht s (Or.inr (Or.inl hs)))
  · exact parseAmountOpt_nonneg _ (fun s hs => ht s (Or.inr (Or.inr (Or.inl hs))))
  · exact parseAmountOpt_nonneg _ (fun s hs => ht s (Or.inr (Or.inr (Or.inr hs))))

/-- Well-formed raw details for the C4 witness. -/
def rawPosDetails : Patched.RawDetails :=
  { lender := some "HDFC Bank", accountType := some "Home Loan",
    accountNumber := none, ownership := none, accountStatus := some "Active",
    dateOpened := none, dateReported := none, dateClosed := none,
    sanctionAmount := some "750000", currentBalance := some "320000",
    amountOverdue := none, emiAmount := some "15000",
    securityOrCollateral := none, dpdHistory := none,
    totalWriteOffAmount := none, principalWriteOff := none,
    settlementAmount := none }

/-- Well-formed raw totals for the C4 witness. -/
def rawPosTotals : Patched.RawTotals :=
  { loanSanctioned := some "750000", loanOutstanding := some "320000",
    cardLimit := some "0", cardOutstanding := some "0" }

/-- C4 witness: on minus-free interpreter output every numeric leaf is
non-negative, and a digit-free string parses to `0`. -/
theorem C4_witness :
    0 ≤ (Patched.normalizeDetails rawPosDetails).sanctionAmount.toRat ∧
    Patched.parseAmount "not a number" = JsNum.zero := by
  have h := C4_numeric_leaves rawPosDetails rawPosTotals
    (by
      rintro s (h | h | h | h | h | h | h) <;>
        simp only [rawPosDetails] at h <;>
        first
          | exact Option.noConfusion h
          | (injection h with h2; rw [← h2]; decide))
    (by
      rintro s (h | h | h | h) <;>
        simp only [rawPosTotals] at h <;>
        (injection h with h2; rw [← h2]; decide))
  exact ⟨h.1.1, h.2.2 "not a number" (by decide)⟩

/-- Raw interpreter details carrying a negative sanction amount. -/
def rawNegDetails : Patched.RawDetails :=
  { lender := some "X Bank", accountType := none, accountNumber := none,
    ownership := none, accountStatus := none, dateOpened := none,
    dateReported := none, dateClosed := none,
    sanctionAmount := some "-5", currentBalance := some "0",
    amountOverdue := none, emiAmount := none, securityOrCollateral := none,
    dpdHistory := none, totalWriteOffAmount := none,
    principalWriteOff := none, settlementAmount := none }

/-- Raw interpreter totals carrying a negative `loanSanctioned`. -/
def rawNegTotals : Patched.RawTotals :=
  { loanSanctioned := some "-5", loanOutstanding := some "0",
    cardLimit := some "0", cardOutstanding := some "0" }

/-- A 300-character anchor-free document for the C4 counterexample. -/
def negDoc : String := String.mk (List.replicate 300 'y')

/-- The AI outcome built from the negative raw totals. -/
def aiNeg : Patched.AiParsed :=
  { score := ⟨750, 0⟩, enquiryCount := ⟨3, 0⟩, dpd := "0 - Clean",
    totals := Patched.normalizeTotals rawNegTotals }

set_option maxRecDepth 8000 in
/-- C4 counterexample: a raw value `"-5"` (or JSON `-5`) from the external
interpreter normalizes to the NEGATIVE leaf `-5` — in the loan details and in
the totals — and the pipeline then returns it inside a successful
`ExtractionResult`, contradicting the claimed `≥ 0` invariant. -/
theorem C4_counterexample :
    (Patched.normalizeDetails rawNegDetails).sanctionAmount.toRat < 0 ∧
    Patched.analyzePipeline { pdfText := negDoc, ocr := some "", ai := some aiNeg } =
      Patched.Response.success aiNeg ∧
    aiNeg.totals.loanSanctioned.toRat < 0 := by
  refine ⟨?_, by decide, ?_⟩
  · have h : (Patched.normalizeDetails rawNegDetails).sanctionAmount = ⟨-5, 0⟩ := by decide
    rw [h]
    exact JsNum.toRat_neg_of_num_neg _ (by decide)
  · have h : aiNeg.totals.loanSanctioned = ⟨-5, 0⟩ := by decide
    rw [h]
    exact JsNum.toRat_neg_of_num_neg _ (by decide)

namespace Parser

/-- Model of `rawText.replace(/\r/g, "")` (`parser.js` line 5, first step). -/
def removeCR (l : List Char) : List Char := l.filter (fun c => c ≠ '\r')

/-- The class `[^\S\r\n]` — whitespace other than CR/LF. -/
def isWsNotNL (c : Char) : Bool := isJsWs c && !(c = '\r') && !(c = '\n')

/-- Model of `replace(/[^\S\r\n]+/g, " ")`: collapse every run of non-newline
whitespace to a single space (fuel-driven; each step consumes at least one
character, and exhausted fuel returns the input unchanged). -/
def collapseWsGo : Nat → List Char → List Char
  | 0, l => l
  | _ + 1, [] => []
  | fuel + 1, c :: rest =>
    if isWsNotNL c then ' ' :: collapseWsGo fuel (rest.dropWhile isWsNotNL)
    else c :: collapseWsGo fuel rest

/-- The whitespace collapse of `parser.js` line 5, second step. -/
def collapseWs (l : List Char) : List Char := collapseWsGo (l.length + 1) l

/-- The text normalization of `parseBureauReport` (`parser.js` line 5). -/
def normalizeText (s : String) : List Char := collapseWs (removeCR s.data)

/-- Regex piece `\d{3}`: the value of three leading digits, if present. -/
def digits3 : List Char → Option Nat
  | a :: b :: c :: _ =>
    if isDigitChar a && isDigitChar b && isDigitChar c then
      some (100 * digitVal a + 10 * digitVal b + digitVal c)
    else none
  | _ => none

/-- The score acceptance window `[300, 900]` (`parser.js` lines 20, 32). -/
def inScoreRange (v : Nat) : Bool := 300 ≤ v && v ≤ 900

/-- Whether three leading digits with value in `[300, 900]` sit here. -/
def run3At (l : List Char) : Bool :=
  match digits3 l with
  | some v => inScoreRange v
  | none => false

/-- Whether the text contains three consecutive digits whose value lies in
`[300, 900]` (anywhere, even inside a longer digit run). -/
def hasRun3InRange : List Char → Bool
  | [] => false
  | c :: rest => run3At (c :: rest) || hasRun3InRange rest

/-- The bureau-name alternation `(experian|cibil|crif|equifax)`. -/
def stripKeyword (l : List Char) : Option (List Char) :=
  match stripPfxCI "experian".data l with
  | some r => some r
  | none =>
    match stripPfxCI "cibil".data l with
    | some r => some r
    | none =>
      match stripPfxCI "crif".data l with
      | some r => some r
      | none => stripPfxCI "equifax".data l

/-- Head match of `/(experian|cibil|crif|equifax)[^\d]{0,40}(\d{3})/i`:
keyword, then the non-digit run (at most 40 long), then three digits. -/
def atP1 (l : List Char) : Option Nat :=
  match stripKeyword l with
  | some r =>
    let k := (r.takeWhile (fun c => !isDigitChar c)).length
    if k ≤ 40 then digits3 (r.drop k) else none
  | none => none

/-- Leftmost match of score pattern 1 (`parser.js` line 11). -/
def tryP1 : List Char → Option Nat
  | [] => none
  | c :: rest =>
    match atP1 (c :: rest) with
    | some v => some v
    | none => tryP1 rest

/-- Head match of `/(credit\s+score)[^\d]{0,40}(\d{3})/i`. -/
def atP2 (l : List Char) : Option Nat :=
  match stripPfxCI "credit".data l with
  | some r1 =>
    match wsRun1 r1 with
    | some r2 =>
      match stripPfxCI "score".data r2 with
      | some r3 =>
        let k := (r3.takeWhile (fun c => !isDigitChar c)).length
        if k ≤ 40 then digits3 (r3.drop k) else none
      | none => none
    | none => none
  | none => none

/-- Leftmost match of score pattern 2 (`parser.js` line 12). -/
def tryP2 : List Char → Option Nat
  | [] => none
  | c :: rest =>
    match atP2 (c :: rest) with
    | some v => some v
    | none => tryP2 rest

/-- JS `\w`: ASCII letters, digits, underscore. -/
def isWordChar (c : Char) : Bool :=
  isDigitChar c || (97 ≤ c.toLower.toNat && c.toLower.toNat ≤ 122) || c = '_'

/-- A `\b` boundary holds before the scan position (`prev` is the previous
character, `none` at text start). -/
def boundaryOK : Option Char → Bool
  | some p => !isWordChar p
  | none => true

/-- Whether the list starts with a non-word character (or is empty): the
trailing `\b` after `\d{3}`. -/
def headNotWord : List Char → Bool
  | d :: _ => !isWordChar d
  | [] => true

/-- Regex piece `(\d{3})\b`: three digits not followed by a word character. -/
def digits3Bounded (l : List Char) : Option Nat :=
  match digits3 l with
  | some v => if headNotWord (l.drop 3) then some v else none
  | none => none

/-- Regex piece `[:\-]?`: consume one colon or hyphen when present. -/
def consumeColonDash (r : List Char) : List Char :=
  match r with
  | c :: t => if c = ':' || c = '-' then t else r
  | [] => r

/-- Head match of `/\bscore\s*[:\-]?\s*(\d{3})\b/i`. -/
def atP3 (prev : Option Char) (l : List Char) : Option Nat :=
  if boundaryOK prev then
    match stripPfxCI "score".data l with
    | some r1 =>
      digits3Bounded ((consumeColonDash (r1.dropWhile isJsWs)).dropWhile isJsWs)
    | none => none
  else none

/-- Leftmost match of score pattern 3 (`parser.js` line 13), carrying the
previous character for the `\b` test. -/
def tryP3Go (prev : Option Char) : List Char → Option Nat
  | [] => none
  | c :: rest =>
    match atP3 prev (c :: rest) with
    | some v => some v
    | none => tryP3Go (some c) rest

/-- Leftmost match of score pattern 3 from text start. -/
def tryP3 (l : List Char) : Option Nat := tryP3Go none l

/-- The fallback of `parser.js` lines 28-37: the first standalone 3-digit
token (`\b\d{3}\b`) whose value lies in `[300, 900]`. -/
def fallbackGo (prev : Option Char) : List Char → Option Nat
  | [] => none
  | c :: rest =>
    match (if boundaryOK prev then digits3Bounded (c :: rest) else none) with
    | some v => if inScoreRange v then some v else fallbackGo (some c) rest
    | none => fallbackGo (some c) rest

/-- Keep a pattern's match only when its 3-digit value lies in `[300, 900]`
(`parser.js` lines 16-25: an out-of-range match falls through to the next
pattern). -/
def pickScore : Option Nat → Option Nat
  | some v => if inScoreRange v then some v else none
  | none => none

/-- The credit-score section of `parseBureauReport` (`parser.js` lines
8-37): try the three patterns in order keeping the first in-range match,
else fall back to the first standalone in-range 3-digit token, else `null`. -/
def scoreOf (s : String) : Option Nat :=
  let t := normalizeText s
  match pickScore (tryP1 t) with
  | some v => some v
  | none =>
    match pickScore (tryP2 t) with
    | some v => some v
    | none =>
      match pickScore (tryP3 t) with
      | some v => some v
      | none => fallbackGo none t

/-- Whether the raw text contains a standalone 3-digit token (`\b\d{3}\b`)
with value in `[300, 900]` — the claim's reading of "3-digit token". -/
def hasThreeDigitTokenInRange (s : String) : Bool :=
  (fallbackGo none s.data).isSome

end Parser

example : Parser.scoreOf "Experian Credit Score 750" = some 750 := by decide

example : Parser.scoreOf "experian 7501" = some 750 := by decide

example : Parser.scoreOf "hello world" = none := by decide

example : Parser.hasThreeDigitTokenInRange "experian 7501" = false := by decide

theorem stripPfxCI_suffix : ∀ (pat l r : List Char), stripPfxCI pat l = some r → r <:+ l := by
  intro pat
  induction pat with
  | nil =>
    intro l r h
    have heq : l = r := by simpa [stripPfxCI] using h
    cases heq
    exact List.suffix_refl l
  | cons p ps ih =>
    intro l r h
    cases l with
    | nil => exact Option.noConfusion h
    | cons c cs =>
      unfold stripPfxCI at h
      split at h
      · exact (ih cs r h).trans (List.suffix_cons c cs)
      · exact absurd h (by simp)

theorem wsRun1_cons (c : Char) (rest : List Char) :
    wsRun1 (c :: rest) =
      if isJsWs c = true then some (rest.dropWhile isJsWs) else none := rfl

theorem wsRun1_suffix (l r : List Char) (h : wsRun1 l = some r) : r <:+ l := by
  cases l with
  | nil => exact Option.noConfusion h
  | cons c rest =>
    rw [wsRun1_cons] at h
    by_cases hw : isJsWs c = true
    · rw [if_pos hw] at h
      have h2 : List.dropWhile isJsWs rest = r := Option.some.inj h
      rw [← h2]
      exact (List.dropWhile_suffix _).trans (List.suffix_cons c rest)
    · rw [if_neg hw] at h
      exact Option.noConfusion h

theorem stripKeyword_suffix (l r : List Char) (h : Parser.stripKeyword l = some r) :
    r <:+ l := by
  unfold Parser.stripKeyword at h
  cases h1 : stripPfxCI "experian".data l with
  | some x =>
    rw [h1] at h
    simp only [Option.some.injEq] at h
    exact h ▸ stripPfxCI_suffix _ _ _ h1
  | none =>
    rw [h1] at h
    cases h2 : stripPfxCI "cibil".data l with
    | some x =>
      rw [h2] at h
      simp only [Option.some.injEq] at h
      exact h ▸ stripPfxCI_suffix _ _ _ h2
    | none =>
      rw [h2] at h
      cases h3 : stripPfxCI "crif".data l with
      | some x =>
        rw [h3] at h
        simp only [Option.some.injEq] at h
        exact h ▸ stripPfxCI_suffix _ _ _ h3
      | none =>
        rw [h3] at h
        exact stripPfxCI_suffix _ _ _ h

theorem consumeColonDash_suffix (r : List Char) : Parser.consumeColonDash r <:+ r := by
  cases r with
  | nil => exact List.suffix_refl _
  | cons c t =>
    show (if (c = ':' || c = '-') = true then t else c :: t) <:+ c :: t
    by_cases hc : (c = ':' || c = '-') = true
    · rw [if_pos hc]
      exact List.suffix_cons c t
    · simp only [if_neg hc]
      exact List.suffix_refl _

theorem hasRun3_suffix_mono : ∀ (l s : List Char), s <:+ l →
    Parser.hasRun3InRange s = true → Parser.hasRun3InRange l = true := by
  intro l
  induction l with
  | nil =>
    intro s hs h
    rw [List.suffix_nil.mp hs] at h
    exact h
  | cons c rest ih =>
    intro s hs h
    rcases List.suffix_cons_iff.mp hs with heq | hsuf
    · rw [← heq]
      exact h
    · unfold Parser.hasRun3InRange
      rw [ih s hsuf h, Bool.or_true]

theorem run3At_of_digits3 (l : List Char) (v : Nat) (hd : Parser.digits3 l = some v)
    (hr : Parser.inScoreRange v = true) : Parser.run3At l = true := by
  unfold Parser.run3At
  rw [hd]
  exact hr

theorem hasRun3_of_run3At (l : List Char) (h : Parser.run3At l = true) :
    Parser.hasRun3InRange l = true := by
  cases l with
  | nil => simp [Parser.run3At, Parser.digits3] at h
  | cons c rest =>
    unfold Parser.hasRun3InRange
    rw [h, Bool.true_or]

theorem digits3Bounded_digits3 (l : List Char) (v : Nat)
    (h : Parser.digits3Bounded l = some v) : Parser.digits3 l = some v := by
  unfold Parser.digits3Bounded at h
  cases hd : Parser.digits3 l with
  | none => rw [hd] at h; exact Option.noConfusion h
  | some w =>
    rw [hd] at h
    change (if Parser.headNotWord (l.drop 3) = true then some w else none) = some v at h
    by_cases hh : Parser.headNotWord (l.drop 3) = true
    · rw [if_pos hh] at h
      exact h
    · rw [if_neg hh] at h
      exact Option.noConfusion h

theorem atP1_digits (l : List Char) (v : Nat) (h : Parser.atP1 l = some v) :
    ∃ s, s <:+ l ∧ Parser.digits3 s = some v := by
  unfold Parser.atP1 at h
  cases hk : Parser.stripKeyword l with
  | none => rw [hk] at h; exact Option.noConfusion h
  | some r =>
    rw [hk] at h
    change (if ((r.takeWhile (fun c => !isDigitChar c)).length) ≤ 40 then
        Parser.digits3 (r.drop ((r.takeWhile (fun c => !isDigitChar c)).length))
      else none) = some v at h
    by_cases hc : ((r.takeWhile (fun c => !isDigitChar c)).length) ≤ 40
    · rw [if_pos hc] at h
      exact ⟨_, (List.drop_suffix _ _).trans (stripKeyword_suffix l r hk), h⟩
    · rw [if_neg hc] at h
      exact Option.noConfusion h

theorem tryP1_digits : ∀ (l : List Char) (v : Nat), Parser.tryP1 l = some v →
    ∃ s, s <:+ l ∧ Parser.digits3 s = some v := by
  intro l
  induction l with
  | nil => intro v h; exact Option.noConfusion h
  | cons c rest ih =>
    intro v h
    unfold Parser.tryP1 at h
    cases ha : Parser.atP1 (c :: rest) with
    | some w =>
      rw [ha] at h
      have hw : w = v := Option.some.inj h
      exact hw ▸ atP1_digits _ _ ha
    | none =>
      rw [ha] at h
      obtain ⟨s, hs, hd⟩ := ih v h
      exact ⟨s, hs.trans (List.suffix_cons c rest), hd⟩

theorem atP2_digits (l : List Char) (v : Nat) (h : Parser.atP2 l = some v) :
    ∃ s, s <:+ l ∧ Parser.digits3 s = some v := by
  unfold Parser.atP2 at h
  cases h1 : stripPfxCI "credit".data l with
  | none => rw [h1] at h; exact Option.noConfusion h
  | some r1 =>
    rw [h1] at h
    simp only at h
    cases h2 : wsRun1 r1 with
    | none => rw [h2] at h; exact Option.noConfusion h
    | some r2 =>
      rw [h2] at h
      simp only at h
      cases h3 : stripPfxCI "score".data r2 with
      | none => rw [h3] at h; exact Option.noConfusion h
      | some r3 =>
        rw [h3] at h
        simp only at h
        change (if ((r3.takeWhile (fun c => !isDigitChar c)).length) ≤ 40 then
            Parser.digits3 (r3.drop ((r3.takeWhile (fun c => !isDigitChar c)).length))
          else none) = some v at h
        by_cases hc : ((r3.takeWhile (fun c => !isDigitChar c)).length) ≤ 40
        · rw [if_pos hc] at h
          refine ⟨_, ?_, h⟩
          have hsuf : r3 <:+ l :=
            (stripPfxCI_suffix _ _ _ h3).trans
              ((wsRun1_suffix _ _ h2).trans (stripPfxCI_suffix _ _ _ h1))
          exact (List.drop_suffix _ _).trans hsuf
        · rw [if_neg hc] at h
          exact Option.noConfusion h

theorem tryP2_digits : ∀ (l : List Char) (v : Nat), Parser.tryP2 l = some v →
    ∃ s, s <:+ l ∧ Parser.digits3 s = some v := by
  intro l
  induction l with
  | nil => intro v h; exact Option.noConfusion h
  | cons c rest ih =>
    intro v h
    unfold Parser.tryP2 at h
    cases ha : Parser.atP2 (c :: rest) with
    | some w =>
      rw [ha] at h
      have hw : w = v := Option.some.inj h
      exact hw ▸ atP2_digits _ _ ha
    | none =>
      rw [ha] at h
      obtain ⟨s, hs, hd⟩ := ih v h
      exact ⟨s, hs.trans (List.suffix_cons c rest), hd⟩

theorem atP3_digits (prev : Option Char) (l : List Char) (v : Nat)
    (h : Parser.atP3 prev l = some v) : ∃ s, s <:+ l ∧ Parser.digits3 s = some v := by
  unfold Parser.atP3 at h
  by_cases hb : Parser.boundaryOK prev = true
  · rw [if_pos hb] at h
    cases h1 : stripPfxCI "score".data l with
    | none => rw [h1] at h; exact Option.noConfusion h
    | some r1 =>
      rw [h1] at h
      refine ⟨_, ?_, digits3Bounded_digits3 _ _ h⟩
      have hc1 : r1.dropWhile isJsWs <:+ r1 := List.dropWhile_suffix _
      have hc2 := consumeColonDash_suffix (r1.dropWhile isJsWs)
      have hc3 : (Parser.consumeColonDash (r1.dropWhile isJsWs)).dropWhile isJsWs <:+
          Parser.consumeColonDash (r1.dropWhile isJsWs) := List.dropWhile_suffix _
      exact hc3.trans (hc2.trans (hc1.trans (stripPfxCI_suffix _ _ _ h1)))
  · rw [if_neg hb] at h
    exact Option.noConfusion h

theorem tryP3Go_digits : ∀ (l : List Char) (prev : Option Char) (v : Nat),
    Parser.tryP3Go prev l = some v → ∃ s, s <:+ l ∧ Parser.digits3 s = some v := by
  intro l
  induction l with
  | nil => intro prev v h; exact Option.noConfusion h
  | cons c rest ih =>
    intro prev v h
    unfold Parser.tryP3Go at h
    cases ha : Parser.atP3 prev (c :: rest) with
    | some w =>
      rw [ha] at h
      have hw : w = v := Option.some.inj h
      exact hw ▸ atP3_digits _ _ _ ha
    | none =>
      rw [ha] at h
      obtain ⟨s, hs, hd⟩ := ih (some c) v h
      exact ⟨s, hs.trans (List.suffix_cons c rest), hd⟩

theorem fallbackGo_spec : ∀ (l : List Char) (prev : Option Char) (v : Nat),
    Parser.fallbackGo prev l = some v →
    Parser.inScoreRange v = true ∧ ∃ s, s <:+ l ∧ Parser.digits3 s = some v := by
  intro l
  induction l with
  | nil => intro prev v h; exact Option.noConfusion h
  | cons c rest ih =>
    intro prev v h
    unfold Parser.fallbackGo at h
    cases hb : (if Parser.boundaryOK prev = true then
        Parser.digits3Bounded (c :: rest) else none) with
    | some w =>
      rw [hb] at h
      simp only at h
      by_cases hir : Parser.inScoreRange w = true
      · rw [if_pos hir] at h
        have hw : w = v := Option.some.inj h
        subst hw
        have hdb : Parser.digits3Bounded (c :: rest) = some w := by
          by_cases hbo : Parser.boundaryOK prev = true
          · rw [if_pos hbo] at hb; exact hb
          · rw [if_neg hbo] at hb; exact Option.noConfusion hb
        exact ⟨hir, _, List.suffix_refl _, digits3Bounded_digits3 _ _ hdb⟩
      · rw [if_neg hir] at h
        obtain ⟨h1, s, hs, hd⟩ := ih (some c) v h
        exact ⟨h1, s, hs.trans (List.suffix_cons c rest), hd⟩
    | none =>
      rw [hb] at h
      obtain ⟨h1, s, hs, hd⟩ := ih (some c) v h
      exact ⟨h1, s, hs.trans (List.suffix_cons c rest), hd⟩

theorem pickScore_spec (o : Option Nat) (v : Nat) (h : Parser.pickScore o = some v) :
    o = some v ∧ Parser.inScoreRange v = true := by
  cases o with
  | none => exact Option.noConfusion h
  | some w =>
    unfold Parser.pickScore at h
    simp only at h
    by_cases hir : Parser.inScoreRange w = true
    · rw [if_pos hir] at h
      have hw : w = v := Option.some.inj h
      subst hw
      exact ⟨rfl, hir⟩
    · rw [if_neg hir] at h
      exact Option.noConfusion h

theorem removeCR_eq_self (l : List Char) (h : '\r' ∉ l) : Parser.removeCR l = l := by
  unfold Parser.removeCR
  apply List.filter_eq_self.mpr
  intro c hc
  simp only [decide_eq_true_eq]
  exact fun heq => h (heq ▸ hc)

theorem run3At_false_head (a : Char) (t : List Char) (h : isDigitChar a = false) :
    Parser.run3At (a :: t) = false := by
  cases t with
  | nil => rfl
  | cons b t2 =>
    cases t2 with
    | nil => rfl
    | cons c t3 => simp [Parser.run3At, Parser.digits3, h]

theorem not_ws_of_digit (c : Char) (h : isDigitChar c = true) : isJsWs c = false := by
  unfold isDigitChar at h
  unfold isJsWs
  simp only [Bool.and_eq_true, decide_eq_true_eq] at h
  simp only [Bool.or_eq_false_iff, Bool.and_eq_false_iff, beq_eq_false_iff_ne, ne_eq,
    decide_eq_false_iff_not, not_le]
  omega

theorem not_wsnn_of_digit (c : Char) (h : isDigitChar c = true) :
    Parser.isWsNotNL c = false := by
  unfold Parser.isWsNotNL
  rw [not_ws_of_digit c h]
  rfl

theorem collapse_head_nonws : ∀ (fuel : Nat) (r : List Char) (d : Char) (t : List Char),
    Parser.collapseWsGo fuel r = d :: t → Parser.isWsNotNL d = false →
    ∃ t', r = d :: t' ∧ Parser.collapseWsGo (fuel - 1) t' = t := by
  intro fuel
  cases fuel with
  | zero =>
    intro r d t h _
    exact ⟨t, h, rfl⟩
  | succ f =>
    intro r d t h hd
    cases r with
    | nil => exact List.noConfusion h
    | cons c rest =>
      unfold Parser.collapseWsGo at h
      by_cases hw : Parser.isWsNotNL c = true
      · rw [if_pos hw] at h
        injection h with h1 h2
        rw [← h1] at hd
        rw [show Parser.isWsNotNL ' ' = true from by decide] at hd
        exact Bool.noConfusion hd
      · rw [if_neg hw] at h
        injection h with h1 h2
        exact ⟨rest, by rw [h1], h2⟩

theorem digits3_some_shape (l : List Char) (v : Nat) (h : Parser.digits3 l = some v) :
    ∃ a b c r, l = a :: b :: c :: r ∧ isDigitChar a = true ∧ isDigitChar b = true ∧
      isDigitChar c = true := by
  cases l with
  | nil => exact Option.noConfusion h
  | cons a l1 =>
    cases l1 with
    | nil => exact Option.noConfusion h
    | cons b l2 =>
      cases l2 with
      | nil => exact Option.noConfusion h
      | cons c r =>
        unfold Parser.digits3 at h
        simp only at h
        by_cases hc : (isDigitChar a && isDigitChar b && isDigitChar c) = true
        · simp only [Bool.and_eq_true] at hc
          exact ⟨a, b, c, r, rfl, hc.1.1, hc.1.2, hc.2⟩
        · rw [if_neg hc] at h
          exact Option.noConfusion h

theorem digits3_val (a b c : Char) (r1 r2 : List Char) :
    Parser.digits3 (a :: b :: c :: r1) = Parser.digits3 (a :: b :: c :: r2) := rfl

theorem collapse_run3 : ∀ (fuel : Nat) (l : List Char),
    Parser.hasRun3InRange (Parser.collapseWsGo fuel l) = true →
    Parser.hasRun3InRange l = true := by
  intro fuel
  induction fuel with
  | zero => intro l h; exact h
  | succ f ih =>
    intro l h
    cases l with
    | nil => exact h
    | cons c rest =>
      unfold Parser.collapseWsGo at h
      by_cases hw : Parser.isWsNotNL c = true
      · rw [if_pos hw] at h
        unfold Parser.hasRun3InRange at h
        rw [run3At_false_head ' ' _ (by decide)] at h
        simp only [Bool.false_or] at h
        have h1 := ih _ h
        have h2 : Parser.hasRun3InRange rest = true :=
          hasRun3_suffix_mono rest _ (List.dropWhile_suffix _) h1
        unfold Parser.hasRun3InRange
        rw [h2, Bool.or_true]
      · rw [if_neg hw] at h
        unfold Parser.hasRun3InRange at h
        rcases Bool.or_eq_true_iff.mp h with hr | hr
        · unfold Parser.run3At at hr
          cases hd : Parser.digits3 (c :: Parser.collapseWsGo f rest) with
          | none => rw [hd] at hr; exact Bool.noConfusion hr
          | some v =>
            rw [hd] at hr
            obtain ⟨a, b, c2, r, heq, ha, hb2, hc2⟩ := digits3_some_shape _ _ hd
            have h1 : c = a := by injection heq
            have h2 : Parser.collapseWsGo f rest = b :: c2 :: r := by
              injection heq with hx hy
            obtain ⟨t1, hrest, hcol1⟩ :=
              collapse_head_nonws f rest b (c2 :: r) h2 (not_wsnn_of_digit b hb2)
            obtain ⟨t2, ht1, _⟩ :=
              collapse_head_nonws (f - 1) t1 c2 r hcol1 (not_wsnn_of_digit c2 hc2)
            have hd3 : Parser.digits3 (c :: rest) = some v := by
              rw [h1, hrest, ht1, digits3_val a b c2 t2 r]
              rw [heq] at hd
              exact hd
            unfold Parser.hasRun3InRange
            rw [run3At_of_digits3 _ _ hd3 hr, Bool.true_or]
        · unfold Parser.hasRun3InRange
          rw [ih rest hr, Bool.or_true]

theorem scoreOf_range (s : String) :
    Parser.scoreOf s = none ∨
      ∃ v, Parser.scoreOf s = some v ∧ 300 ≤ v ∧ v ≤ 900 := by
  have hrange : ∀ v : Nat, Parser.inScoreRange v = true → 300 ≤ v ∧ v ≤ 900 := by
    intro v hv
    unfold Parser.inScoreRange at hv
    simp only [Bool.and_eq_true, decide_eq_true_eq] at hv
    exact hv
  unfold Parser.scoreOf
  simp only
  cases h1 : Parser.pickScore (Parser.tryP1 (Parser.normalizeText s)) with
  | some v => exact Or.inr ⟨v, rfl, hrange v (pickScore_spec _ _ h1).2⟩
  | none =>
    cases h2 : Parser.pickScore (Parser.tryP2 (Parser.normalizeText s)) with
    | some v => exact Or.inr ⟨v, rfl, hrange v (pickScore_spec _ _ h2).2⟩
    | none =>
      cases h3 : Parser.pickScore (Parser.tryP3 (Parser.normalizeText s)) with
      | some v => exact Or.inr ⟨v, rfl, hrange v (pickScore_spec _ _ h3).2⟩
      | none =>
        cases h4 : Parser.fallbackGo none (Parser.normalizeText s) with
        | some v => exact Or.inr ⟨v, rfl, hrange v (fallbackGo_spec _ _ _ h4).1⟩
        | none => exact Or.inl rfl

theorem scoreOf_none_of_no_run3 (s : String) (hcr : '\r' ∉ s.data)
    (h : Parser.hasRun3InRange s.data = false) : Parser.scoreOf s = none := by
  have hnorm : Parser.hasRun3InRange (Parser.normalizeText s) = false := by
    by_contra hc
    rw [Bool.not_eq_false] at hc
    unfold Parser.normalizeText Parser.collapseWs at hc
    have h1 := collapse_run3 _ _ hc
    rw [removeCR_eq_self _ hcr] at h1
    rw [h1] at h
    exact Bool.noConfusion h
  have key : ∀ (v : Nat) (s' : List Char), s' <:+ Parser.normalizeText s →
      Parser.digits3 s' = some v → Parser.inScoreRange v = true → False := by
    intro v s' hs hd hr
    have hr3 := hasRun3_suffix_mono _ _ hs
      (hasRun3_of_run3At _ (run3At_of_digits3 _ _ hd hr))
    rw [hr3] at hnorm
    exact Bool.noConfusion hnorm
  unfold Parser.scoreOf
  simp only
  cases h1 : Parser.pickScore (Parser.tryP1 (Parser.normalizeText s)) with
  | some v =>
    obtain ⟨ht, hr⟩ := pickScore_spec _ _ h1
    obtain ⟨s', hs, hd⟩ := tryP1_digits _ _ ht
    exact (key v s' hs hd hr).elim
  | none =>
    cases h2 : Parser.pickScore (Parser.tryP2 (Parser.normalizeText s)) with
    | some v =>
      obtain ⟨ht, hr⟩ := pickScore_spec _ _ h2
      obtain ⟨s', hs, hd⟩ := tryP2_digits _ _ ht
      exact (key v s' hs hd hr).elim
    | none =>
      cases h3 : Parser.pickScore (Parser.tryP3 (Parser.normalizeText s)) with
      | some v =>
        obtain ⟨ht, hr⟩ := pickScore_spec _ _ h3
        obtain ⟨s', hs, hd⟩ := tryP3Go_digits _ _ _ ht
        exact (key v s' hs hd hr).elim
      | none =>
        cases h4 : Parser.fallbackGo none (Parser.normalizeText s) with
        | some v =>
          obtain ⟨hr, s', hs, hd⟩ := fallbackGo_spec _ _ _ h4
          exact (key v s' hs hd hr).elim
        | none => rfl

/-- C5 (amended): the score extractor of `parser.js` returns either `null`
or an integer in `[300, 900]` (never `0`), text containing
`"Experian Credit Score 750"` yields `750`, and any CR-free text containing
NO three consecutive digits with value in `[300, 900]` yields `null`.  (The
original claim's weaker hypothesis — no standalone 3-digit TOKEN in range —
does not suffice: the bureau patterns carry no trailing word boundary and
extract 3-digit prefixes of longer numbers.) -/
theorem C5_score_extractor :
    (∀ s : String, Parser.scoreOf s = none ∨
      ∃ v, Parser.scoreOf s = some v ∧ 300 ≤ v ∧ v ≤ 900) ∧
    Parser.scoreOf "Experian Credit Score 750" = some 750 ∧
    (∀ s : String, '\r' ∉ s.data → Parser.hasRun3InRange s.data = false →
      Parser.scoreOf s = none) :=
  ⟨scoreOf_range, by decide, scoreOf_none_of_no_run3⟩

/-- C5 witness: a text with no digit run in range scores `null`, via the
amended theorem. -/
theorem C5_witness : Parser.scoreOf "no score anywhere" = none :=
  C5_score_extractor.2.2 "no score anywhere" (by decide) (by decide)

/-- C5 counterexample: `"experian 7501"` contains NO standalone 3-digit token
in `[300, 900]` (the only digit run is the 4-digit `7501`), yet the extractor
returns `750`, not `null`: pattern 1 has no trailing `\b` and happily reads
the first three digits of `7501`. -/
theorem C5_counterexample :
    Parser.hasThreeDigitTokenInRange "experian 7501" = false ∧
    Parser.scoreOf "experian 7501" = some 750 :=
  ⟨by decide, by decide⟩
